import Mathlib

/-!
Shallow embedding of the bedlam-cube solver (src/main.rs).

A 4x4x4 volume (a piece shape or the cube occupancy) is a 64-bit mask,
modelled as a natural number below 2^64, with cell (x, y, z) at bit index
x*16 + y*4 + z.  The embedding covers: bit packing, 90-degree rotation and
translation of volumes, placement generation, the per-cell coverage index,
the backtracking search, the solution fingerprint and the rotation-orbit
de-duplication pass.
-/

namespace Bedlam

abbrev CUBE_SIZE : Nat := 4

abbrev CUBE_NUM_BITS : Nat := 64

abbrev NUM_PIECES : Nat := 13

/-- The three rotation axes of the source enum. -/
inductive Axis
  | X
  | Y
  | Z
deriving DecidableEq, Fintype

/-- pack_bit from the source: shift a boolean into bit position x*16 + y*4 + z. -/
def pack_bit (b : Bool) (x y z : Nat) : Nat :=
  (if b then 1 else 0) <<< (x * 16 + y * 4 + z)

/-- unpack_bit from the source: read bit x*16 + y*4 + z of a mask. -/
def unpack_bit (block : Nat) (x y z : Nat) : Bool :=
  (block >>> (x * 16 + y * 4 + z)) &&& 1 == 1

/-- count_ones of a u64 value: the number of set bits among indices 0..64. -/
def countOnes (n : Nat) : Nat :=
  ((Finset.range 64).filter (fun i => n.testBit i)).card

/-- Helper for trailing_ones: length of the run of low one bits, scanning at
most the given number of bits. -/
def trailingOnesAux : Nat → Nat → Nat
  | _, 0 => 0
  | n, fuel + 1 => if n % 2 = 1 then trailingOnesAux (n / 2) fuel + 1 else 0

/-- trailing_ones of a u64 value: the number of trailing one bits
(64 for the all-ones mask). -/
def trailingOnes (n : Nat) : Nat := trailingOnesAux n 64

/-- The 64 cube cells (z, y, x), z outermost, exactly as the nested loops of
the source iterate them. -/
def cellList : List (Nat × Nat × Nat) :=
  (List.range 4).flatMap (fun z =>
    (List.range 4).flatMap (fun y =>
      (List.range 4).map (fun x => (z, y, x))))

/-- Axis-specific source coordinates of rotate_piece_90: the match expression
of the source. -/
def srcCoords (a : Axis) (x y z : Nat) : Nat × Nat × Nat :=
  match a with
  | Axis.X => (x, 3 - z, y)
  | Axis.Y => (3 - z, y, x)
  | Axis.Z => (3 - y, x, z)

/-- rotate_piece_90 from the source: rotate a packed volume by 90 degrees
about the given axis, copying bit (sx, sy, sz) to (x, y, z) for every cell. -/
def rotate_piece_90 (piece : Nat) (axis : Axis) : Nat :=
  cellList.foldl (fun acc c =>
    acc ||| pack_bit
      (unpack_bit piece (srcCoords axis c.2.2 c.2.1 c.1).1
        (srcCoords axis c.2.2 c.2.1 c.1).2.1 (srcCoords axis c.2.2 c.2.1 c.1).2.2)
      c.2.2 c.2.1 c.1) 0

/-- In-range test of translate: the shifted cell stays inside [0, 4) on every
axis (the bounds check of the source, written on Int like the i32 check). -/
abbrev inCube (dx dy dz : Int) (c : Nat × Nat × Nat) : Prop :=
  (c.2.2 : Int) + dx < 4 ∧ (c.2.1 : Int) + dy < 4 ∧ (c.1 : Int) + dz < 4 ∧
    0 ≤ (c.2.2 : Int) + dx ∧ 0 ≤ (c.2.1 : Int) + dy ∧ 0 ≤ (c.1 : Int) + dz

/-- Target bit index of a cell moved by (dx, dy, dz). -/
def shiftTarget (dx dy dz : Int) (c : Nat × Nat × Nat) : Nat :=
  ((c.2.2 : Int) + dx).toNat * 16 + ((c.2.1 : Int) + dy).toNat * 4 + ((c.1 : Int) + dz).toNat

/-- translate from the source: shift a volume by (dx, dy, dz), keeping only
cells whose target stays inside [0, 4) on every axis. -/
def translate (piece : Nat) (dx dy dz : Int) : Nat :=
  cellList.foldl (fun acc c =>
    if inCube dx dy dz c then
      acc ||| pack_bit (unpack_bit piece c.2.2 c.2.1 c.1)
        ((c.2.2 : Int) + dx).toNat ((c.2.1 : Int) + dy).toNat ((c.1 : Int) + dz).toNat
    else acc) 0

theorem unpack_bit_eq_testBit (m x y z : Nat) :
    unpack_bit m x y z = m.testBit (x * 16 + y * 4 + z) := by
  rw [unpack_bit, Nat.and_one_is_mod, Nat.shiftRight_eq_div_pow, Nat.testBit_to_div_mod]
  exact Bool.eq_iff_iff.mpr (by simp)

theorem pack_bit_testBit (b : Bool) (x y z i : Nat) :
    (pack_bit b x y z).testBit i = (b && decide (i = x * 16 + y * 4 + z)) := by
  cases b
  · simp [pack_bit]
  · simp only [pack_bit, if_pos]
    rw [Nat.shiftLeft_eq, one_mul, Nat.testBit_two_pow]
    simp [eq_comm]

theorem testBit_foldl {α : Type} (g : α → Nat) (step : Nat → α → Nat)
    (hstep : ∀ acc x i, (step acc x).testBit i = (acc.testBit i || (g x).testBit i)) :
    ∀ (l : List α) (a : Nat) (i : Nat),
      (l.foldl step a).testBit i = (a.testBit i || l.any fun x => (g x).testBit i)
  | [], a, i => by simp
  | x :: l, a, i => by
    simp only [List.foldl_cons, List.any_cons,
      testBit_foldl g step hstep l (step a x) i, hstep, Bool.or_assoc]

theorem mem_cellList (c : Nat × Nat × Nat) :
    c ∈ cellList ↔ c.1 < 4 ∧ c.2.1 < 4 ∧ c.2.2 < 4 := by
  obtain ⟨z, y, x⟩ := c
  simp [cellList, List.mem_flatMap, List.mem_map, List.mem_range]
  constructor
  · rintro ⟨a, ha, b, hb, d, hd, h1, h2, h3⟩
    omega
  · rintro ⟨hz, hy, hx⟩
    exact ⟨z, hz, y, hy, x, hx, rfl, rfl, rfl⟩

theorem rotate_testBit (piece : Nat) (a : Axis) (i : Nat) :
    (rotate_piece_90 piece a).testBit i =
      cellList.any fun c =>
        (unpack_bit piece (srcCoords a c.2.2 c.2.1 c.1).1
            (srcCoords a c.2.2 c.2.1 c.1).2.1 (srcCoords a c.2.2 c.2.1 c.1).2.2
          && decide (i = c.2.2 * 16 + c.2.1 * 4 + c.1)) := by
  rw [rotate_piece_90, testBit_foldl
    (fun c => pack_bit
      (unpack_bit piece (srcCoords a c.2.2 c.2.1 c.1).1
        (srcCoords a c.2.2 c.2.1 c.1).2.1 (srcCoords a c.2.2 c.2.1 c.1).2.2)
      c.2.2 c.2.1 c.1)
    _ (fun acc c j => by rw [Nat.testBit_or])]
  simp [pack_bit_testBit]

theorem list_any_congr {α : Type} {f g : α → Bool} :
    ∀ {l : List α}, (∀ a ∈ l, f a = g a) → l.any f = l.any g
  | [], _ => rfl
  | x :: l, h => by
    simp only [List.any_cons, h x (List.mem_cons_self x l),
      list_any_congr (fun a ha => h a (List.mem_cons_of_mem x ha))]

theorem translate_testBit (piece : Nat) (dx dy dz : Int) (i : Nat) :
    (translate piece dx dy dz).testBit i =
      cellList.any fun c =>
        (decide (inCube dx dy dz c) && unpack_bit piece c.2.2 c.2.1 c.1
          && decide (i = shiftTarget dx dy dz c)) := by
  have hstep : ∀ (acc : Nat) (c : Nat × Nat × Nat) (j : Nat),
      ((fun acc (c : Nat × Nat × Nat) =>
        if inCube dx dy dz c then
          acc ||| pack_bit (unpack_bit piece c.2.2 c.2.1 c.1)
            ((c.2.2 : Int) + dx).toNat ((c.2.1 : Int) + dy).toNat ((c.1 : Int) + dz).toNat
        else acc) acc c).testBit j
        = (acc.testBit j ||
          ((fun (c : Nat × Nat × Nat) =>
            if inCube dx dy dz c then
              pack_bit (unpack_bit piece c.2.2 c.2.1 c.1)
                ((c.2.2 : Int) + dx).toNat ((c.2.1 : Int) + dy).toNat ((c.1 : Int) + dz).toNat
            else 0) c).testBit j) := by
    intro acc c j
    by_cases h : inCube dx dy dz c
    · simp only [if_pos h, Nat.testBit_or]
    · simp only [if_neg h, Nat.zero_testBit, Bool.or_false]
  rw [translate, testBit_foldl _ _ hstep]
  simp only [Nat.zero_testBit, Bool.false_or]
  apply list_any_congr
  intro c _
  by_cases h : inCube dx dy dz c
  · simp [if_pos h, pack_bit_testBit, h, shiftTarget, Bool.and_assoc]
  · simp [if_neg h, h]

theorem and_eq_zero_iff_testBit (a b : Nat) :
    a &&& b = 0 ↔ ∀ i, ¬(a.testBit i = true ∧ b.testBit i = true) := by
  constructor
  · intro h i hi
    have h2 := congrArg (fun n => n.testBit i) h
    simp only [Nat.testBit_and, Nat.zero_testBit] at h2
    rw [hi.1, hi.2] at h2
    exact Bool.noConfusion h2
  · intro h
    apply Nat.eq_of_testBit_eq
    intro i
    rw [Nat.testBit_and, Nat.zero_testBit]
    cases ha : a.testBit i
    · simp
    · cases hb : b.testBit i
      · simp
      · exact absurd ⟨ha, hb⟩ (h i)

theorem countOnes_or_disjoint {a b : Nat} (h : a &&& b = 0) :
    countOnes (a ||| b) = countOnes a + countOnes b := by
  rw [countOnes, countOnes, countOnes]
  have hu : (Finset.range 64).filter (fun i => (a ||| b).testBit i)
      = (Finset.range 64).filter (fun i => a.testBit i) ∪
        (Finset.range 64).filter (fun i => b.testBit i) := by
    ext i
    simp only [Finset.mem_filter, Finset.mem_union, Nat.testBit_or, Bool.or_eq_true]
    tauto
  rw [hu, Finset.card_union_of_disjoint]
  rw [Finset.disjoint_filter]
  intro i _ ha hb
  exact (and_eq_zero_iff_testBit a b).mp h i ⟨ha, hb⟩

theorem countOnes_le (n : Nat) : countOnes n ≤ 64 := by
  calc countOnes n ≤ (Finset.range 64).card := Finset.card_filter_le _ _
  _ = 64 := Finset.card_range 64

theorem countOnes_lt_of_testBit {s m : Nat} (bi : Nat) (hbi : bi < 64)
    (hs : s.testBit bi = false) (hm : m.testBit bi = true) :
    countOnes s < countOnes (s ||| m) := by
  have h1 : (Finset.range 64).filter (fun i => s.testBit i) ⊆
      (Finset.range 64).filter (fun i => (s ||| m).testBit i) := by
    intro i hi
    simp only [Finset.mem_filter, Nat.testBit_or] at hi ⊢
    exact ⟨hi.1, by rw [hi.2, Bool.true_or]⟩
  have h2 : bi ∈ (Finset.range 64).filter (fun i => (s ||| m).testBit i) := by
    simp only [Finset.mem_filter, Finset.mem_range, Nat.testBit_or]
    exact ⟨hbi, by rw [hm, Bool.or_true]⟩
  have h3 : bi ∉ (Finset.range 64).filter (fun i => s.testBit i) := by
    simp [Finset.mem_filter, hs]
  exact Finset.card_lt_card ((Finset.ssubset_iff_of_subset h1).mpr ⟨bi, h2, h3⟩)

theorem countOnes_full : countOnes (2 ^ 64 - 1) = 64 := by
  have h : ∀ i ∈ Finset.range 64, (2 ^ 64 - 1 : Nat).testBit i = true := by
    intro i hi
    rw [Nat.testBit_two_pow_sub_one]
    simpa using Finset.mem_range.mp hi
  rw [countOnes, Finset.filter_true_of_mem h, Finset.card_range]

theorem eq_full_of_countOnes {s : Nat} (h1 : s < 2 ^ 64) (h2 : countOnes s = 64) :
    s = 2 ^ 64 - 1 := by
  have heq : (Finset.range 64).filter (fun i => s.testBit i) = Finset.range 64 :=
    Finset.eq_of_subset_of_card_le (Finset.filter_subset _ _)
      (by rw [Finset.card_range]; exact le_of_eq h2.symm)
  apply Nat.eq_of_testBit_eq
  intro i
  rw [Nat.testBit_two_pow_sub_one]
  by_cases hi : i < 64
  · have hm : i ∈ (Finset.range 64).filter (fun j => s.testBit j) := by
      rw [heq]; exact Finset.mem_range.mpr hi
    rw [(Finset.mem_filter.mp hm).2]
    simp [hi]
  · rw [Nat.testBit_lt_two_pow
      (lt_of_lt_of_le h1 (Nat.pow_le_pow_right (by omega) (by omega)))]
    simp [hi]

theorem all_testBit_of_countOnes {u n : Nat} (hu : u < 2 ^ n) (hn : n ≤ 64)
    (hc : countOnes u = n) : ∀ p, p < n → u.testBit p = true := by
  have hsub : (Finset.range 64).filter (fun i => u.testBit i) ⊆ Finset.range n := by
    intro i hi
    rw [Finset.mem_range]
    by_contra hlt
    have : u.testBit i = false :=
      Nat.testBit_lt_two_pow (lt_of_lt_of_le hu (Nat.pow_le_pow_right (by omega) (by omega)))
    rw [(Finset.mem_filter.mp hi).2] at this
    exact Bool.noConfusion this
  have heq : (Finset.range 64).filter (fun i => u.testBit i) = Finset.range n :=
    Finset.eq_of_subset_of_card_le hsub (by rw [Finset.card_range]; exact le_of_eq hc.symm)
  intro p hp
  have : p ∈ (Finset.range 64).filter (fun i => u.testBit i) := by
    rw [heq]; exact Finset.mem_range.mpr hp
  exact (Finset.mem_filter.mp this).2

theorem trailingOnesAux_le : ∀ (fuel n : Nat), trailingOnesAux n fuel ≤ fuel
  | 0, _ => Nat.le_refl 0
  | fuel + 1, n => by
    rw [trailingOnesAux]
    split
    · exact Nat.succ_le_succ (trailingOnesAux_le fuel (n / 2))
    · exact Nat.zero_le _

theorem trailingOnesAux_true : ∀ (fuel n j : Nat), j < trailingOnesAux n fuel →
    n.testBit j = true
  | 0, _, _, h => absurd h (by simp [trailingOnesAux])
  | fuel + 1, n, j, h => by
    rw [trailingOnesAux] at h
    split at h
    · rename_i hm
      match j with
      | 0 => rw [Nat.testBit_zero]; simpa using hm
      | j + 1 =>
        rw [Nat.testBit_add_one]
        exact trailingOnesAux_true fuel (n / 2) j (by omega)
    · omega

theorem trailingOnesAux_false : ∀ (fuel n : Nat), trailingOnesAux n fuel < fuel →
    n.testBit (trailingOnesAux n fuel) = false
  | 0, _, h => absurd h (by simp)
  | fuel + 1, n, h => by
    rw [trailingOnesAux] at h ⊢
    split at h
    · rename_i hm
      rw [if_pos hm, Nat.testBit_add_one]
      exact trailingOnesAux_false fuel (n / 2) (by omega)
    · rename_i hm
      rw [if_neg hm, Nat.testBit_zero]
      simpa using hm

theorem trailingOnes_le (n : Nat) : trailingOnes n ≤ 64 := trailingOnesAux_le 64 n

theorem trailingOnes_testBit_false {s : Nat} (h : trailingOnes s < 64) :
    s.testBit (trailingOnes s) = false := trailingOnesAux_false 64 s h

theorem trailingOnes_testBit_true {s j : Nat} (h : j < trailingOnes s) :
    s.testBit j = true := trailingOnesAux_true 64 s j h

theorem trailingOnes_lt_64 {s : Nat} (h1 : s < 2 ^ 64) (h2 : s ≠ 2 ^ 64 - 1) :
    trailingOnes s < 64 := by
  rcases Nat.lt_or_ge (trailingOnes s) 64 with h | h
  · exact h
  · exfalso
    apply h2
    apply Nat.eq_of_testBit_eq
    intro i
    rw [Nat.testBit_two_pow_sub_one]
    by_cases hi : i < 64
    · rw [trailingOnes_testBit_true (by omega)]
      simp [hi]
    · rw [Nat.testBit_lt_two_pow
        (lt_of_lt_of_le h1 (Nat.pow_le_pow_right (by omega) (by omega)))]
      simp [hi]

theorem trailingOnes_full : trailingOnes (2 ^ 64 - 1) = 64 := by decide

theorem getD_range {i n : Nat} (h : i < n) (d : Nat) : (List.range n).getD i d = i := by
  rw [List.getD_eq_getElem?_getD, List.getElem?_range h]
  rfl

theorem getD_range_map {α : Type} {f : Nat → α} {i n : Nat} (h : i < n) (d : α) :
    ((List.range n).map f).getD i d = f i := by
  rw [List.getD_eq_getElem?_getD, List.getElem?_map, List.getElem?_range h]
  rfl

theorem getD_map_lt {α β : Type} {f : α → β} {l : List α} {i : Nat} (h : i < l.length)
    (d : β) (d2 : α) : (l.map f).getD i d = f (l.getD i d2) := by
  rw [List.getD_eq_getElem?_getD, List.getElem?_map, List.getElem?_eq_getElem h,
    List.getD_eq_getElem?_getD, List.getElem?_eq_getElem h]
  rfl

theorem getD_mem {α : Type} {l : List α} {i : Nat} (h : i < l.length) (d : α) :
    l.getD i d ∈ l := by
  rw [List.getD_eq_getElem?_getD, List.getElem?_eq_getElem h]
  exact List.getElem_mem h

/-- Identity bit permutation on the 64 cell indices. -/
def idPerm : List Nat := List.range 64

/-- Bit-index permutation realised by rotate_piece_90 about an axis: entry i
holds the source bit index feeding target bit i. -/
def axisPerm (a : Axis) : List Nat :=
  (List.range 64).map (fun i =>
    (srcCoords a (i / 16) (i / 4 % 4) (i % 4)).1 * 16 +
    (srcCoords a (i / 16) (i / 4 % 4) (i % 4)).2.1 * 4 +
    (srcCoords a (i / 16) (i / 4 % 4) (i % 4)).2.2)

/-- Apply a bit-index permutation to a mask: target bit i of the result reads
source bit sigma(i) of the input. -/
def applyPerm (sigma : List Nat) (v : Nat) : Nat :=
  (List.range 64).foldl (fun acc i =>
    acc ||| (if v.testBit (sigma.getD i 0) then 1 <<< i else 0)) 0

/-- Composition of source-index permutations: first sigma, then tau; entry i
of the result is sigma applied to entry i of tau. -/
def pcomp (sigma tau : List Nat) : List Nat :=
  tau.map (fun j => sigma.getD j 0)

/-- Well-formedness of a bit-index permutation: 64 entries, all below 64. -/
abbrev PermOK (sigma : List Nat) : Prop :=
  sigma.length = 64 ∧ ∀ j ∈ sigma, j < 64

theorem applyPerm_testBit (sigma : List Nat) (v : Nat) (i : Nat) :
    (applyPerm sigma v).testBit i = (decide (i < 64) && v.testBit (sigma.getD i 0)) := by
  rw [applyPerm, testBit_foldl (fun j => if v.testBit (sigma.getD j 0) then 1 <<< j else 0) _
    (fun acc x j => Nat.testBit_or _ _ _)]
  simp only [Nat.zero_testBit, Bool.false_or]
  apply Bool.eq_iff_iff.mpr
  rw [List.any_eq_true]
  constructor
  · rintro ⟨j, hj, hb⟩
    rw [List.mem_range] at hj
    split at hb
    · rename_i htb
      rw [Nat.shiftLeft_eq, one_mul, Nat.testBit_two_pow] at hb
      have hji : j = i := by simpa using hb
      subst hji
      have hd : decide (j < 64) = true := by simp [hj]
      rw [hd, Bool.true_and]
      exact htb
    · exact absurd hb (by simp)
  · intro h
    simp only [Bool.and_eq_true, decide_eq_true_eq] at h
    refine ⟨i, List.mem_range.mpr h.1, ?_⟩
    rw [if_pos h.2, Nat.shiftLeft_eq, one_mul, Nat.testBit_two_pow]
    simp

theorem lt_two_pow_of_high_bits_false {x n : Nat} (h : ∀ i, n ≤ i → x.testBit i = false) :
    x < 2 ^ n := by
  by_contra h2
  obtain ⟨i, hge, hbit⟩ := Nat.ge_two_pow_implies_high_bit_true (Nat.le_of_not_lt h2)
  rw [h i hge] at hbit
  exact Bool.noConfusion hbit

theorem applyPerm_lt (sigma : List Nat) (v : Nat) : applyPerm sigma v < 2 ^ 64 := by
  apply lt_two_pow_of_high_bits_false
  intro i hi
  rw [applyPerm_testBit]
  have h2 : decide (i < 64) = false := by simp only [decide_eq_false_iff_not]; omega
  rw [h2, Bool.false_and]

theorem axisPerm_getD {a : Axis} {i : Nat} (h : i < 64) :
    (axisPerm a).getD i 0 =
      (srcCoords a (i / 16) (i / 4 % 4) (i % 4)).1 * 16 +
      (srcCoords a (i / 16) (i / 4 % 4) (i % 4)).2.1 * 4 +
      (srcCoords a (i / 16) (i / 4 % 4) (i % 4)).2.2 := by
  rw [axisPerm, getD_range_map h]

theorem rotate_eq_applyPerm (v : Nat) (a : Axis) :
    rotate_piece_90 v a = applyPerm (axisPerm a) v := by
  apply Nat.eq_of_testBit_eq
  intro i
  rw [rotate_testBit, applyPerm_testBit]
  apply Bool.eq_iff_iff.mpr
  rw [List.any_eq_true]
  constructor
  · rintro ⟨c, hc, hb⟩
    rw [mem_cellList] at hc
    obtain ⟨hz, hy, hx⟩ := hc
    simp only [Bool.and_eq_true, decide_eq_true_eq] at hb
    obtain ⟨hub, hieq⟩ := hb
    subst hieq
    have hi64 : c.2.2 * 16 + c.2.1 * 4 + c.1 < 64 := by omega
    have e1 : (c.2.2 * 16 + c.2.1 * 4 + c.1) / 16 = c.2.2 := by omega
    have e2 : (c.2.2 * 16 + c.2.1 * 4 + c.1) / 4 % 4 = c.2.1 := by omega
    have e3 : (c.2.2 * 16 + c.2.1 * 4 + c.1) % 4 = c.1 := by omega
    rw [axisPerm_getD hi64, e1, e2, e3]
    rw [unpack_bit_eq_testBit] at hub
    have hd : decide (c.2.2 * 16 + c.2.1 * 4 + c.1 < 64) = true := by simp [hi64]
    rw [hd, Bool.true_and]
    exact hub
  · intro h
    simp only [Bool.and_eq_true, decide_eq_true_eq] at h
    obtain ⟨hi, hbit⟩ := h
    refine ⟨(i % 4, i / 4 % 4, i / 16), ?_, ?_⟩
    · rw [mem_cellList]
      dsimp only
      refine ⟨by omega, by omega, by omega⟩
    · rw [axisPerm_getD hi] at hbit
      simp only [Bool.and_eq_true, decide_eq_true_eq]
      constructor
      · rw [unpack_bit_eq_testBit]
        exact hbit
      · omega

theorem applyPerm_applyPerm {tau : List Nat} (htau : PermOK tau) (sigma : List Nat) (v : Nat) :
    applyPerm tau (applyPerm sigma v) = applyPerm (pcomp sigma tau) v := by
  apply Nat.eq_of_testBit_eq
  intro i
  rw [applyPerm_testBit tau, applyPerm_testBit (pcomp sigma tau)]
  by_cases hi : i < 64
  · have hlen : i < tau.length := by rw [htau.1]; exact hi
    have hmem : tau.getD i 0 ∈ tau := getD_mem hlen 0
    have hlt : tau.getD i 0 < 64 := htau.2 _ hmem
    rw [applyPerm_testBit sigma]
    have hg : (pcomp sigma tau).getD i 0 = sigma.getD (tau.getD i 0) 0 := by
      rw [pcomp, getD_map_lt hlen]
    rw [hg, decide_eq_true hi, decide_eq_true hlt]
    simp only [Bool.true_and]
  · have hd : decide (i < 64) = false := by simp only [decide_eq_false_iff_not]; omega
    rw [hd, Bool.false_and, Bool.false_and]

theorem applyPerm_idPerm {v : Nat} (hv : v < 2 ^ 64) : applyPerm idPerm v = v := by
  apply Nat.eq_of_testBit_eq
  intro i
  rw [applyPerm_testBit]
  by_cases hi : i < 64
  · rw [idPerm, getD_range hi]
    have hd : decide (i < 64) = true := by simp [hi]
    rw [hd, Bool.true_and]
  · have hd : decide (i < 64) = false := by simp only [decide_eq_false_iff_not]; omega
    rw [hd, Bool.false_and]
    exact (Nat.testBit_lt_two_pow
      (lt_of_lt_of_le hv (Nat.pow_le_pow_right (by omega) (by omega)))).symm

theorem axisPerm_ok (a : Axis) : PermOK (axisPerm a) := by
  cases a <;> exact ⟨by decide, by decide⟩

/-- The 84-step rotation schedule of the nested loops in generate_placements
and filter_unique_solutions: four X turns then one Y turn, four times over,
then one Z turn, the whole block four times. -/
def rotSeq : List Axis :=
  (List.replicate 4
    ((List.replicate 4 [Axis.X, Axis.X, Axis.X, Axis.X, Axis.Y]).flatten ++ [Axis.Z])).flatten

/-- Cumulative bit permutations visited along the rotation schedule. -/
def visitedPerms : List (List Nat) :=
  (rotSeq.scanl (fun sigma a => pcomp sigma (axisPerm a)) idPerm).tail

/-- The 24 rotations of the cube as bit-index permutations: exactly the
distinct values visited along the rotation schedule (theorem
visitedPerms_mem_iff), listed in order of first visit. -/
def cubeRotations : List (List Nat) := [
  [12, 8, 4, 0, 13, 9, 5, 1, 14, 10, 6, 2, 15, 11, 7, 3, 28, 24, 20, 16, 29, 25, 21, 17, 30, 26, 22, 18, 31, 27, 23, 19, 44, 40, 36, 32, 45, 41, 37, 33, 46, 42, 38, 34, 47, 43, 39, 35, 60, 56, 52, 48, 61, 57, 53, 49, 62, 58, 54, 50, 63, 59, 55, 51],
  [15, 14, 13, 12, 11, 10, 9, 8, 7, 6, 5, 4, 3, 2, 1, 0, 31, 30, 29, 28, 27, 26, 25, 24, 23, 22, 21, 20, 19, 18, 17, 16, 47, 46, 45, 44, 43, 42, 41, 40, 39, 38, 37, 36, 35, 34, 33, 32, 63, 62, 61, 60, 59, 58, 57, 56, 55, 54, 53, 52, 51, 50, 49, 48],
  [3, 7, 11, 15, 2, 6, 10, 14, 1, 5, 9, 13, 0, 4, 8, 12, 19, 23, 27, 31, 18, 22, 26, 30, 17, 21, 25, 29, 16, 20, 24, 28, 35, 39, 43, 47, 34, 38, 42, 46, 33, 37, 41, 45, 32, 36, 40, 44, 51, 55, 59, 63, 50, 54, 58, 62, 49, 53, 57, 61, 48, 52, 56, 60],
  [0, 1, 2, 3, 4, 5, 6, 7, 8, 9, 10, 11, 12, 13, 14, 15, 16, 17, 18, 19, 20, 21, 22, 23, 24, 25, 26, 27, 28, 29, 30, 31, 32, 33, 34, 35, 36, 37, 38, 39, 40, 41, 42, 43, 44, 45, 46, 47, 48, 49, 50, 51, 52, 53, 54, 55, 56, 57, 58, 59, 60, 61, 62, 63],
  [48, 32, 16, 0, 52, 36, 20, 4, 56, 40, 24, 8, 60, 44, 28, 12, 49, 33, 17, 1, 53, 37, 21, 5, 57, 41, 25, 9, 61, 45, 29, 13, 50, 34, 18, 2, 54, 38, 22, 6, 58, 42, 26, 10, 62, 46, 30, 14, 51, 35, 19, 3, 55, 39, 23, 7, 59, 43, 27, 11, 63, 47, 31, 15],
  [60, 56, 52, 48, 44, 40, 36, 32, 28, 24, 20, 16, 12, 8, 4, 0, 61, 57, 53, 49, 45, 41, 37, 33, 29, 25, 21, 17, 13, 9, 5, 1, 62, 58, 54, 50, 46, 42, 38, 34, 30, 26, 22, 18, 14, 10, 6, 2, 63, 59, 55, 51, 47, 43, 39, 35, 31, 27, 23, 19, 15, 11, 7, 3],
  [12, 28, 44, 60, 8, 24, 40, 56, 4, 20, 36, 52, 0, 16, 32, 48, 13, 29, 45, 61, 9, 25, 41, 57, 5, 21, 37, 53, 1, 17, 33, 49, 14, 30, 46, 62, 10, 26, 42, 58, 6, 22, 38, 54, 2, 18, 34, 50, 15, 31, 47, 63, 11, 27, 43, 59, 7, 23, 39, 55, 3, 19, 35, 51],
  [0, 4, 8, 12, 16, 20, 24, 28, 32, 36, 40, 44, 48, 52, 56, 60, 1, 5, 9, 13, 17, 21, 25, 29, 33, 37, 41, 45, 49, 53, 57, 61, 2, 6, 10, 14, 18, 22, 26, 30, 34, 38, 42, 46, 50, 54, 58, 62, 3, 7, 11, 15, 19, 23, 27, 31, 35, 39, 43, 47, 51, 55, 59, 63],
  [51, 50, 49, 48, 55, 54, 53, 52, 59, 58, 57, 56, 63, 62, 61, 60, 35, 34, 33, 32, 39, 38, 37, 36, 43, 42, 41, 40, 47, 46, 45, 44, 19, 18, 17, 16, 23, 22, 21, 20, 27, 26, 25, 24, 31, 30, 29, 28, 3, 2, 1, 0, 7, 6, 5, 4, 11, 10, 9, 8, 15, 14, 13, 12],
  [63, 59, 55, 51, 62, 58, 54, 50, 61, 57, 53, 49, 60, 56, 52, 48, 47, 43, 39, 35, 46, 42, 38, 34, 45, 41, 37, 33, 44, 40, 36, 32, 31, 27, 23, 19, 30, 26, 22, 18, 29, 25, 21, 17, 28, 24, 20, 16, 15, 11, 7, 3, 14, 10, 6, 2, 13, 9, 5, 1, 12, 8, 4, 0],
  [60, 61, 62, 63, 56, 57, 58, 59, 52, 53, 54, 55, 48, 49, 50, 51, 44, 45, 46, 47, 40, 41, 42, 43, 36, 37, 38, 39, 32, 33, 34, 35, 28, 29, 30, 31, 24, 25, 26, 27, 20, 21, 22, 23, 16, 17, 18, 19, 12, 13, 14, 15, 8, 9, 10, 11, 4, 5, 6, 7, 0, 1, 2, 3],
  [48, 52, 56, 60, 49, 53, 57, 61, 50, 54, 58, 62, 51, 55, 59, 63, 32, 36, 40, 44, 33, 37, 41, 45, 34, 38, 42, 46, 35, 39, 43, 47, 16, 20, 24, 28, 17, 21, 25, 29, 18, 22, 26, 30, 19, 23, 27, 31, 0, 4, 8, 12, 1, 5, 9, 13, 2, 6, 10, 14, 3, 7, 11, 15],
  [3, 19, 35, 51, 7, 23, 39, 55, 11, 27, 43, 59, 15, 31, 47, 63, 2, 18, 34, 50, 6, 22, 38, 54, 10, 26, 42, 58, 14, 30, 46, 62, 1, 17, 33, 49, 5, 21, 37, 53, 9, 25, 41, 57, 13, 29, 45, 61, 0, 16, 32, 48, 4, 20, 36, 52, 8, 24, 40, 56, 12, 28, 44, 60],
  [15, 11, 7, 3, 31, 27, 23, 19, 47, 43, 39, 35, 63, 59, 55, 51, 14, 10, 6, 2, 30, 26, 22, 18, 46, 42, 38, 34, 62, 58, 54, 50, 13, 9, 5, 1, 29, 25, 21, 17, 45, 41, 37, 33, 61, 57, 53, 49, 12, 8, 4, 0, 28, 24, 20, 16, 44, 40, 36, 32, 60, 56, 52, 48],
  [63, 47, 31, 15, 59, 43, 27, 11, 55, 39, 23, 7, 51, 35, 19, 3, 62, 46, 30, 14, 58, 42, 26, 10, 54, 38, 22, 6, 50, 34, 18, 2, 61, 45, 29, 13, 57, 41, 25, 9, 53, 37, 21, 5, 49, 33, 17, 1, 60, 44, 28, 12, 56, 40, 24, 8, 52, 36, 20, 4, 48, 32, 16, 0],
  [51, 55, 59, 63, 35, 39, 43, 47, 19, 23, 27, 31, 3, 7, 11, 15, 50, 54, 58, 62, 34, 38, 42, 46, 18, 22, 26, 30, 2, 6, 10, 14, 49, 53, 57, 61, 33, 37, 41, 45, 17, 21, 25, 29, 1, 5, 9, 13, 48, 52, 56, 60, 32, 36, 40, 44, 16, 20, 24, 28, 0, 4, 8, 12],
  [48, 49, 50, 51, 32, 33, 34, 35, 16, 17, 18, 19, 0, 1, 2, 3, 52, 53, 54, 55, 36, 37, 38, 39, 20, 21, 22, 23, 4, 5, 6, 7, 56, 57, 58, 59, 40, 41, 42, 43, 24, 25, 26, 27, 8, 9, 10, 11, 60, 61, 62, 63, 44, 45, 46, 47, 28, 29, 30, 31, 12, 13, 14, 15],
  [0, 16, 32, 48, 1, 17, 33, 49, 2, 18, 34, 50, 3, 19, 35, 51, 4, 20, 36, 52, 5, 21, 37, 53, 6, 22, 38, 54, 7, 23, 39, 55, 8, 24, 40, 56, 9, 25, 41, 57, 10, 26, 42, 58, 11, 27, 43, 59, 12, 28, 44, 60, 13, 29, 45, 61, 14, 30, 46, 62, 15, 31, 47, 63],
  [3, 2, 1, 0, 19, 18, 17, 16, 35, 34, 33, 32, 51, 50, 49, 48, 7, 6, 5, 4, 23, 22, 21, 20, 39, 38, 37, 36, 55, 54, 53, 52, 11, 10, 9, 8, 27, 26, 25, 24, 43, 42, 41, 40, 59, 58, 57, 56, 15, 14, 13, 12, 31, 30, 29, 28, 47, 46, 45, 44, 63, 62, 61, 60],
  [51, 35, 19, 3, 50, 34, 18, 2, 49, 33, 17, 1, 48, 32, 16, 0, 55, 39, 23, 7, 54, 38, 22, 6, 53, 37, 21, 5, 52, 36, 20, 4, 59, 43, 27, 11, 58, 42, 26, 10, 57, 41, 25, 9, 56, 40, 24, 8, 63, 47, 31, 15, 62, 46, 30, 14, 61, 45, 29, 13, 60, 44, 28, 12],
  [63, 62, 61, 60, 47, 46, 45, 44, 31, 30, 29, 28, 15, 14, 13, 12, 59, 58, 57, 56, 43, 42, 41, 40, 27, 26, 25, 24, 11, 10, 9, 8, 55, 54, 53, 52, 39, 38, 37, 36, 23, 22, 21, 20, 7, 6, 5, 4, 51, 50, 49, 48, 35, 34, 33, 32, 19, 18, 17, 16, 3, 2, 1, 0],
  [15, 31, 47, 63, 14, 30, 46, 62, 13, 29, 45, 61, 12, 28, 44, 60, 11, 27, 43, 59, 10, 26, 42, 58, 9, 25, 41, 57, 8, 24, 40, 56, 7, 23, 39, 55, 6, 22, 38, 54, 5, 21, 37, 53, 4, 20, 36, 52, 3, 19, 35, 51, 2, 18, 34, 50, 1, 17, 33, 49, 0, 16, 32, 48],
  [12, 13, 14, 15, 28, 29, 30, 31, 44, 45, 46, 47, 60, 61, 62, 63, 8, 9, 10, 11, 24, 25, 26, 27, 40, 41, 42, 43, 56, 57, 58, 59, 4, 5, 6, 7, 20, 21, 22, 23, 36, 37, 38, 39, 52, 53, 54, 55, 0, 1, 2, 3, 16, 17, 18, 19, 32, 33, 34, 35, 48, 49, 50, 51],
  [60, 44, 28, 12, 61, 45, 29, 13, 62, 46, 30, 14, 63, 47, 31, 15, 56, 40, 24, 8, 57, 41, 25, 9, 58, 42, 26, 10, 59, 43, 27, 11, 52, 36, 20, 4, 53, 37, 21, 5, 54, 38, 22, 6, 55, 39, 23, 7, 48, 32, 16, 0, 49, 33, 17, 1, 50, 34, 18, 2, 51, 35, 19, 3]
]

/-- A cube rotation is any finite composition of the three 90-degree
generator rotations, acting on bit indices. -/
inductive IsRotation : List Nat → Prop
  | id : IsRotation idPerm
  | step (sigma : List Nat) (a : Axis) : IsRotation sigma → IsRotation (pcomp sigma (axisPerm a))

set_option maxRecDepth 8000

theorem cubeRotations_card : cubeRotations.length = 24 := by rfl

theorem idPerm_mem_cubeRotations : idPerm ∈ cubeRotations := by decide

theorem cubeRotations_closed :
    ∀ sigma ∈ cubeRotations, ∀ a : Axis, pcomp sigma (axisPerm a) ∈ cubeRotations := by decide

theorem cubeRotations_ok : ∀ sigma ∈ cubeRotations, PermOK sigma ∧ sigma.Nodup := by decide

theorem cubeRotations_sub_visited : ∀ sigma ∈ cubeRotations, sigma ∈ visitedPerms := by decide

theorem scanl_isRotation (l : List Axis) :
    ∀ (t : List Nat), IsRotation t →
      ∀ sigma ∈ l.scanl (fun s a => pcomp s (axisPerm a)) t, IsRotation sigma := by
  induction l with
  | nil =>
    intro t ht sigma hs
    rw [List.scanl_nil, List.mem_singleton] at hs
    rwa [hs]
  | cons a l ih =>
    intro t ht sigma hs
    rw [List.scanl_cons] at hs
    rcases List.mem_append.mp hs with h | h
    · rw [List.mem_singleton] at h
      rwa [h]
    · exact ih (pcomp t (axisPerm a)) (IsRotation.step t a ht) sigma h

theorem visitedPerms_isRotation : ∀ sigma ∈ visitedPerms, IsRotation sigma := by
  intro sigma hs
  exact scanl_isRotation rotSeq idPerm IsRotation.id sigma (List.mem_of_mem_tail hs)

theorem isRotation_mem_cubeRotations {sigma : List Nat} (h : IsRotation sigma) :
    sigma ∈ cubeRotations := by
  induction h with
  | id => exact idPerm_mem_cubeRotations
  | step t a ht ih => exact cubeRotations_closed t ih a

theorem isRotation_iff_mem (sigma : List Nat) : IsRotation sigma ↔ sigma ∈ cubeRotations := by
  constructor
  · exact isRotation_mem_cubeRotations
  · intro h
    exact visitedPerms_isRotation sigma (cubeRotations_sub_visited sigma h)

/-- Rotation phase of generate_placements: the 84 volumes visited by the
nested rotation loops, in visit order.  The source inserts each visited
volume into a hash set; membership in this list is membership in that set. -/
def rotOrbitList (piece : Nat) : List Nat :=
  (rotSeq.scanl rotate_piece_90 piece).tail

theorem pcomp_idPerm_axis (a : Axis) : pcomp idPerm (axisPerm a) = axisPerm a := by
  cases a <;> decide

theorem scanl_rotate_applyPerm (l : List Axis) :
    ∀ (sigma : List Nat) (v : Nat),
      l.scanl rotate_piece_90 (applyPerm sigma v) =
        (l.scanl (fun t a => pcomp t (axisPerm a)) sigma).map (fun t => applyPerm t v) := by
  induction l with
  | nil =>
    intro sigma v
    rw [List.scanl_nil, List.scanl_nil, List.map_singleton]
  | cons a l ih =>
    intro sigma v
    rw [List.scanl_cons, List.scanl_cons, List.map_append, List.map_singleton]
    apply congrArg ([applyPerm sigma v] ++ ·)
    rw [rotate_eq_applyPerm, applyPerm_applyPerm (axisPerm_ok a)]
    exact ih (pcomp sigma (axisPerm a)) v

theorem rotOrbitList_eq_map (piece : Nat) :
    rotOrbitList piece = visitedPerms.map (fun t => applyPerm t piece) := by
  have hseq : rotSeq = Axis.X :: rotSeq.tail := by rfl
  rw [rotOrbitList, visitedPerms, hseq, List.scanl_cons, List.scanl_cons,
    List.singleton_append, List.singleton_append, List.tail_cons, List.tail_cons]
  have h1 : rotate_piece_90 piece Axis.X = applyPerm (pcomp idPerm (axisPerm Axis.X)) piece := by
    rw [pcomp_idPerm_axis, rotate_eq_applyPerm]
  rw [h1, scanl_rotate_applyPerm]

/-- Each cube rotation paired with its inverse permutation. -/
def cubeRotationPairs : List (List Nat × List Nat) := [
  ([12, 8, 4, 0, 13, 9, 5, 1, 14, 10, 6, 2, 15, 11, 7, 3, 28, 24, 20, 16, 29, 25, 21, 17, 30, 26, 22, 18, 31, 27, 23, 19, 44, 40, 36, 32, 45, 41, 37, 33, 46, 42, 38, 34, 47, 43, 39, 35, 60, 56, 52, 48, 61, 57, 53, 49, 62, 58, 54, 50, 63, 59, 55, 51],
   [3, 7, 11, 15, 2, 6, 10, 14, 1, 5, 9, 13, 0, 4, 8, 12, 19, 23, 27, 31, 18, 22, 26, 30, 17, 21, 25, 29, 16, 20, 24, 28, 35, 39, 43, 47, 34, 38, 42, 46, 33, 37, 41, 45, 32, 36, 40, 44, 51, 55, 59, 63, 50, 54, 58, 62, 49, 53, 57, 61, 48, 52, 56, 60]),
  ([15, 14, 13, 12, 11, 10, 9, 8, 7, 6, 5, 4, 3, 2, 1, 0, 31, 30, 29, 28, 27, 26, 25, 24, 23, 22, 21, 20, 19, 18, 17, 16, 47, 46, 45, 44, 43, 42, 41, 40, 39, 38, 37, 36, 35, 34, 33, 32, 63, 62, 61, 60, 59, 58, 57, 56, 55, 54, 53, 52, 51, 50, 49, 48],
   [15, 14, 13, 12, 11, 10, 9, 8, 7, 6, 5, 4, 3, 2, 1, 0, 31, 30, 29, 28, 27, 26, 25, 24, 23, 22, 21, 20, 19, 18, 17, 16, 47, 46, 45, 44, 43, 42, 41, 40, 39, 38, 37, 36, 35, 34, 33, 32, 63, 62, 61, 60, 59, 58, 57, 56, 55, 54, 53, 52, 51, 50, 49, 48]),
  ([3, 7, 11, 15, 2, 6, 10, 14, 1, 5, 9, 13, 0, 4, 8, 12, 19, 23, 27, 31, 18, 22, 26, 30, 17, 21, 25, 29, 16, 20, 24, 28, 35, 39, 43, 47, 34, 38, 42, 46, 33, 37, 41, 45, 32, 36, 40, 44, 51, 55, 59, 63, 50, 54, 58, 62, 49, 53, 57, 61, 48, 52, 56, 60],
   [12, 8, 4, 0, 13, 9, 5, 1, 14, 10, 6, 2, 15, 11, 7, 3, 28, 24, 20, 16, 29, 25, 21, 17, 30, 26, 22, 18, 31, 27, 23, 19, 44, 40, 36, 32, 45, 41, 37, 33, 46, 42, 38, 34, 47, 43, 39, 35, 60, 56, 52, 48, 61, 57, 53, 49, 62, 58, 54, 50, 63, 59, 55, 51]),
  ([0, 1, 2, 3, 4, 5, 6, 7, 8, 9, 10, 11, 12, 13, 14, 15, 16, 17, 18, 19, 20, 21, 22, 23, 24, 25, 26, 27, 28, 29, 30, 31, 32, 33, 34, 35, 36, 37, 38, 39, 40, 41, 42, 43, 44, 45, 46, 47, 48, 49, 50, 51, 52, 53, 54, 55, 56, 57, 58, 59, 60, 61, 62, 63],
   [0, 1, 2, 3, 4, 5, 6, 7, 8, 9, 10, 11, 12, 13, 14, 15, 16, 17, 18, 19, 20, 21, 22, 23, 24, 25, 26, 27, 28, 29, 30, 31, 32, 33, 34, 35, 36, 37, 38, 39, 40, 41, 42, 43, 44, 45, 46, 47, 48, 49, 50, 51, 52, 53, 54, 55, 56, 57, 58, 59, 60, 61, 62, 63]),
  ([48, 32, 16, 0, 52, 36, 20, 4, 56, 40, 24, 8, 60, 44, 28, 12, 49, 33, 17, 1, 53, 37, 21, 5, 57, 41, 25, 9, 61, 45, 29, 13, 50, 34, 18, 2, 54, 38, 22, 6, 58, 42, 26, 10, 62, 46, 30, 14, 51, 35, 19, 3, 55, 39, 23, 7, 59, 43, 27, 11, 63, 47, 31, 15],
   [3, 19, 35, 51, 7, 23, 39, 55, 11, 27, 43, 59, 15, 31, 47, 63, 2, 18, 34, 50, 6, 22, 38, 54, 10, 26, 42, 58, 14, 30, 46, 62, 1, 17, 33, 49, 5, 21, 37, 53, 9, 25, 41, 57, 13, 29, 45, 61, 0, 16, 32, 48, 4, 20, 36, 52, 8, 24, 40, 56, 12, 28, 44, 60]),
  ([60, 56, 52, 48, 44, 40, 36, 32, 28, 24, 20, 16, 12, 8, 4, 0, 61, 57, 53, 49, 45, 41, 37, 33, 29, 25, 21, 17, 13, 9, 5, 1, 62, 58, 54, 50, 46, 42, 38, 34, 30, 26, 22, 18, 14, 10, 6, 2, 63, 59, 55, 51, 47, 43, 39, 35, 31, 27, 23, 19, 15, 11, 7, 3],
   [15, 31, 47, 63, 14, 30, 46, 62, 13, 29, 45, 61, 12, 28, 44, 60, 11, 27, 43, 59, 10, 26, 42, 58, 9, 25, 41, 57, 8, 24, 40, 56, 7, 23, 39, 55, 6, 22, 38, 54, 5, 21, 37, 53, 4, 20, 36, 52, 3, 19, 35, 51, 2, 18, 34, 50, 1, 17, 33, 49, 0, 16, 32, 48]),
  ([12, 28, 44, 60, 8, 24, 40, 56, 4, 20, 36, 52, 0, 16, 32, 48, 13, 29, 45, 61, 9, 25, 41, 57, 5, 21, 37, 53, 1, 17, 33, 49, 14, 30, 46, 62, 10, 26, 42, 58, 6, 22, 38, 54, 2, 18, 34, 50, 15, 31, 47, 63, 11, 27, 43, 59, 7, 23, 39, 55, 3, 19, 35, 51],
   [12, 28, 44, 60, 8, 24, 40, 56, 4, 20, 36, 52, 0, 16, 32, 48, 13, 29, 45, 61, 9, 25, 41, 57, 5, 21, 37, 53, 1, 17, 33, 49, 14, 30, 46, 62, 10, 26, 42, 58, 6, 22, 38, 54, 2, 18, 34, 50, 15, 31, 47, 63, 11, 27, 43, 59, 7, 23, 39, 55, 3, 19, 35, 51]),
  ([0, 4, 8, 12, 16, 20, 24, 28, 32, 36, 40, 44, 48, 52, 56, 60, 1, 5, 9, 13, 17, 21, 25, 29, 33, 37, 41, 45, 49, 53, 57, 61, 2, 6, 10, 14, 18, 22, 26, 30, 34, 38, 42, 46, 50, 54, 58, 62, 3, 7, 11, 15, 19, 23, 27, 31, 35, 39, 43, 47, 51, 55, 59, 63],
   [0, 16, 32, 48, 1, 17, 33, 49, 2, 18, 34, 50, 3, 19, 35, 51, 4, 20, 36, 52, 5, 21, 37, 53, 6, 22, 38, 54, 7, 23, 39, 55, 8, 24, 40, 56, 9, 25, 41, 57, 10, 26, 42, 58, 11, 27, 43, 59, 12, 28, 44, 60, 13, 29, 45, 61, 14, 30, 46, 62, 15, 31, 47, 63]),
  ([51, 50, 49, 48, 55, 54, 53, 52, 59, 58, 57, 56, 63, 62, 61, 60, 35, 34, 33, 32, 39, 38, 37, 36, 43, 42, 41, 40, 47, 46, 45, 44, 19, 18, 17, 16, 23, 22, 21, 20, 27, 26, 25, 24, 31, 30, 29, 28, 3, 2, 1, 0, 7, 6, 5, 4, 11, 10, 9, 8, 15, 14, 13, 12],
   [51, 50, 49, 48, 55, 54, 53, 52, 59, 58, 57, 56, 63, 62, 61, 60, 35, 34, 33, 32, 39, 38, 37, 36, 43, 42, 41, 40, 47, 46, 45, 44, 19, 18, 17, 16, 23, 22, 21, 20, 27, 26, 25, 24, 31, 30, 29, 28, 3, 2, 1, 0, 7, 6, 5, 4, 11, 10, 9, 8, 15, 14, 13, 12]),
  ([63, 59, 55, 51, 62, 58, 54, 50, 61, 57, 53, 49, 60, 56, 52, 48, 47, 43, 39, 35, 46, 42, 38, 34, 45, 41, 37, 33, 44, 40, 36, 32, 31, 27, 23, 19, 30, 26, 22, 18, 29, 25, 21, 17, 28, 24, 20, 16, 15, 11, 7, 3, 14, 10, 6, 2, 13, 9, 5, 1, 12, 8, 4, 0],
   [63, 59, 55, 51, 62, 58, 54, 50, 61, 57, 53, 49, 60, 56, 52, 48, 47, 43, 39, 35, 46, 42, 38, 34, 45, 41, 37, 33, 44, 40, 36, 32, 31, 27, 23, 19, 30, 26, 22, 18, 29, 25, 21, 17, 28, 24, 20, 16, 15, 11, 7, 3, 14, 10, 6, 2, 13, 9, 5, 1, 12, 8, 4, 0]),
  ([60, 61, 62, 63, 56, 57, 58, 59, 52, 53, 54, 55, 48, 49, 50, 51, 44, 45, 46, 47, 40, 41, 42, 43, 36, 37, 38, 39, 32, 33, 34, 35, 28, 29, 30, 31, 24, 25, 26, 27, 20, 21, 22, 23, 16, 17, 18, 19, 12, 13, 14, 15, 8, 9, 10, 11, 4, 5, 6, 7, 0, 1, 2, 3],
   [60, 61, 62, 63, 56, 57, 58, 59, 52, 53, 54, 55, 48, 49, 50, 51, 44, 45, 46, 47, 40, 41, 42, 43, 36, 37, 38, 39, 32, 33, 34, 35, 28, 29, 30, 31, 24, 25, 26, 27, 20, 21, 22, 23, 16, 17, 18, 19, 12, 13, 14, 15, 8, 9, 10, 11, 4, 5, 6, 7, 0, 1, 2, 3]),
  ([48, 52, 56, 60, 49, 53, 57, 61, 50, 54, 58, 62, 51, 55, 59, 63, 32, 36, 40, 44, 33, 37, 41, 45, 34, 38, 42, 46, 35, 39, 43, 47, 16, 20, 24, 28, 17, 21, 25, 29, 18, 22, 26, 30, 19, 23, 27, 31, 0, 4, 8, 12, 1, 5, 9, 13, 2, 6, 10, 14, 3, 7, 11, 15],
   [48, 52, 56, 60, 49, 53, 57, 61, 50, 54, 58, 62, 51, 55, 59, 63, 32, 36, 40, 44, 33, 37, 41, 45, 34, 38, 42, 46, 35, 39, 43, 47, 16, 20, 24, 28, 17, 21, 25, 29, 18, 22, 26, 30, 19, 23, 27, 31, 0, 4, 8, 12, 1, 5, 9, 13, 2, 6, 10, 14, 3, 7, 11, 15]),
  ([3, 19, 35, 51, 7, 23, 39, 55, 11, 27, 43, 59, 15, 31, 47, 63, 2, 18, 34, 50, 6, 22, 38, 54, 10, 26, 42, 58, 14, 30, 46, 62, 1, 17, 33, 49, 5, 21, 37, 53, 9, 25, 41, 57, 13, 29, 45, 61, 0, 16, 32, 48, 4, 20, 36, 52, 8, 24, 40, 56, 12, 28, 44, 60],
   [48, 32, 16, 0, 52, 36, 20, 4, 56, 40, 24, 8, 60, 44, 28, 12, 49, 33, 17, 1, 53, 37, 21, 5, 57, 41, 25, 9, 61, 45, 29, 13, 50, 34, 18, 2, 54, 38, 22, 6, 58, 42, 26, 10, 62, 46, 30, 14, 51, 35, 19, 3, 55, 39, 23, 7, 59, 43, 27, 11, 63, 47, 31, 15]),
  ([15, 11, 7, 3, 31, 27, 23, 19, 47, 43, 39, 35, 63, 59, 55, 51, 14, 10, 6, 2, 30, 26, 22, 18, 46, 42, 38, 34, 62, 58, 54, 50, 13, 9, 5, 1, 29, 25, 21, 17, 45, 41, 37, 33, 61, 57, 53, 49, 12, 8, 4, 0, 28, 24, 20, 16, 44, 40, 36, 32, 60, 56, 52, 48],
   [51, 35, 19, 3, 50, 34, 18, 2, 49, 33, 17, 1, 48, 32, 16, 0, 55, 39, 23, 7, 54, 38, 22, 6, 53, 37, 21, 5, 52, 36, 20, 4, 59, 43, 27, 11, 58, 42, 26, 10, 57, 41, 25, 9, 56, 40, 24, 8, 63, 47, 31, 15, 62, 46, 30, 14, 61, 45, 29, 13, 60, 44, 28, 12]),
  ([63, 47, 31, 15, 59, 43, 27, 11, 55, 39, 23, 7, 51, 35, 19, 3, 62, 46, 30, 14, 58, 42, 26, 10, 54, 38, 22, 6, 50, 34, 18, 2, 61, 45, 29, 13, 57, 41, 25, 9, 53, 37, 21, 5, 49, 33, 17, 1, 60, 44, 28, 12, 56, 40, 24, 8, 52, 36, 20, 4, 48, 32, 16, 0],
   [63, 47, 31, 15, 59, 43, 27, 11, 55, 39, 23, 7, 51, 35, 19, 3, 62, 46, 30, 14, 58, 42, 26, 10, 54, 38, 22, 6, 50, 34, 18, 2, 61, 45, 29, 13, 57, 41, 25, 9, 53, 37, 21, 5, 49, 33, 17, 1, 60, 44, 28, 12, 56, 40, 24, 8, 52, 36, 20, 4, 48, 32, 16, 0]),
  ([51, 55, 59, 63, 35, 39, 43, 47, 19, 23, 27, 31, 3, 7, 11, 15, 50, 54, 58, 62, 34, 38, 42, 46, 18, 22, 26, 30, 2, 6, 10, 14, 49, 53, 57, 61, 33, 37, 41, 45, 17, 21, 25, 29, 1, 5, 9, 13, 48, 52, 56, 60, 32, 36, 40, 44, 16, 20, 24, 28, 0, 4, 8, 12],
   [60, 44, 28, 12, 61, 45, 29, 13, 62, 46, 30, 14, 63, 47, 31, 15, 56, 40, 24, 8, 57, 41, 25, 9, 58, 42, 26, 10, 59, 43, 27, 11, 52, 36, 20, 4, 53, 37, 21, 5, 54, 38, 22, 6, 55, 39, 23, 7, 48, 32, 16, 0, 49, 33, 17, 1, 50, 34, 18, 2, 51, 35, 19, 3]),
  ([48, 49, 50, 51, 32, 33, 34, 35, 16, 17, 18, 19, 0, 1, 2, 3, 52, 53, 54, 55, 36, 37, 38, 39, 20, 21, 22, 23, 4, 5, 6, 7, 56, 57, 58, 59, 40, 41, 42, 43, 24, 25, 26, 27, 8, 9, 10, 11, 60, 61, 62, 63, 44, 45, 46, 47, 28, 29, 30, 31, 12, 13, 14, 15],
   [12, 13, 14, 15, 28, 29, 30, 31, 44, 45, 46, 47, 60, 61, 62, 63, 8, 9, 10, 11, 24, 25, 26, 27, 40, 41, 42, 43, 56, 57, 58, 59, 4, 5, 6, 7, 20, 21, 22, 23, 36, 37, 38, 39, 52, 53, 54, 55, 0, 1, 2, 3, 16, 17, 18, 19, 32, 33, 34, 35, 48, 49, 50, 51]),
  ([0, 16, 32, 48, 1, 17, 33, 49, 2, 18, 34, 50, 3, 19, 35, 51, 4, 20, 36, 52, 5, 21, 37, 53, 6, 22, 38, 54, 7, 23, 39, 55, 8, 24, 40, 56, 9, 25, 41, 57, 10, 26, 42, 58, 11, 27, 43, 59, 12, 28, 44, 60, 13, 29, 45, 61, 14, 30, 46, 62, 15, 31, 47, 63],
   [0, 4, 8, 12, 16, 20, 24, 28, 32, 36, 40, 44, 48, 52, 56, 60, 1, 5, 9, 13, 17, 21, 25, 29, 33, 37, 41, 45, 49, 53, 57, 61, 2, 6, 10, 14, 18, 22, 26, 30, 34, 38, 42, 46, 50, 54, 58, 62, 3, 7, 11, 15, 19, 23, 27, 31, 35, 39, 43, 47, 51, 55, 59, 63]),
  ([3, 2, 1, 0, 19, 18, 17, 16, 35, 34, 33, 32, 51, 50, 49, 48, 7, 6, 5, 4, 23, 22, 21, 20, 39, 38, 37, 36, 55, 54, 53, 52, 11, 10, 9, 8, 27, 26, 25, 24, 43, 42, 41, 40, 59, 58, 57, 56, 15, 14, 13, 12, 31, 30, 29, 28, 47, 46, 45, 44, 63, 62, 61, 60],
   [3, 2, 1, 0, 19, 18, 17, 16, 35, 34, 33, 32, 51, 50, 49, 48, 7, 6, 5, 4, 23, 22, 21, 20, 39, 38, 37, 36, 55, 54, 53, 52, 11, 10, 9, 8, 27, 26, 25, 24, 43, 42, 41, 40, 59, 58, 57, 56, 15, 14, 13, 12, 31, 30, 29, 28, 47, 46, 45, 44, 63, 62, 61, 60]),
  ([51, 35, 19, 3, 50, 34, 18, 2, 49, 33, 17, 1, 48, 32, 16, 0, 55, 39, 23, 7, 54, 38, 22, 6, 53, 37, 21, 5, 52, 36, 20, 4, 59, 43, 27, 11, 58, 42, 26, 10, 57, 41, 25, 9, 56, 40, 24, 8, 63, 47, 31, 15, 62, 46, 30, 14, 61, 45, 29, 13, 60, 44, 28, 12],
   [15, 11, 7, 3, 31, 27, 23, 19, 47, 43, 39, 35, 63, 59, 55, 51, 14, 10, 6, 2, 30, 26, 22, 18, 46, 42, 38, 34, 62, 58, 54, 50, 13, 9, 5, 1, 29, 25, 21, 17, 45, 41, 37, 33, 61, 57, 53, 49, 12, 8, 4, 0, 28, 24, 20, 16, 44, 40, 36, 32, 60, 56, 52, 48]),
  ([63, 62, 61, 60, 47, 46, 45, 44, 31, 30, 29, 28, 15, 14, 13, 12, 59, 58, 57, 56, 43, 42, 41, 40, 27, 26, 25, 24, 11, 10, 9, 8, 55, 54, 53, 52, 39, 38, 37, 36, 23, 22, 21, 20, 7, 6, 5, 4, 51, 50, 49, 48, 35, 34, 33, 32, 19, 18, 17, 16, 3, 2, 1, 0],
   [63, 62, 61, 60, 47, 46, 45, 44, 31, 30, 29, 28, 15, 14, 13, 12, 59, 58, 57, 56, 43, 42, 41, 40, 27, 26, 25, 24, 11, 10, 9, 8, 55, 54, 53, 52, 39, 38, 37, 36, 23, 22, 21, 20, 7, 6, 5, 4, 51, 50, 49, 48, 35, 34, 33, 32, 19, 18, 17, 16, 3, 2, 1, 0]),
  ([15, 31, 47, 63, 14, 30, 46, 62, 13, 29, 45, 61, 12, 28, 44, 60, 11, 27, 43, 59, 10, 26, 42, 58, 9, 25, 41, 57, 8, 24, 40, 56, 7, 23, 39, 55, 6, 22, 38, 54, 5, 21, 37, 53, 4, 20, 36, 52, 3, 19, 35, 51, 2, 18, 34, 50, 1, 17, 33, 49, 0, 16, 32, 48],
   [60, 56, 52, 48, 44, 40, 36, 32, 28, 24, 20, 16, 12, 8, 4, 0, 61, 57, 53, 49, 45, 41, 37, 33, 29, 25, 21, 17, 13, 9, 5, 1, 62, 58, 54, 50, 46, 42, 38, 34, 30, 26, 22, 18, 14, 10, 6, 2, 63, 59, 55, 51, 47, 43, 39, 35, 31, 27, 23, 19, 15, 11, 7, 3]),
  ([12, 13, 14, 15, 28, 29, 30, 31, 44, 45, 46, 47, 60, 61, 62, 63, 8, 9, 10, 11, 24, 25, 26, 27, 40, 41, 42, 43, 56, 57, 58, 59, 4, 5, 6, 7, 20, 21, 22, 23, 36, 37, 38, 39, 52, 53, 54, 55, 0, 1, 2, 3, 16, 17, 18, 19, 32, 33, 34, 35, 48, 49, 50, 51],
   [48, 49, 50, 51, 32, 33, 34, 35, 16, 17, 18, 19, 0, 1, 2, 3, 52, 53, 54, 55, 36, 37, 38, 39, 20, 21, 22, 23, 4, 5, 6, 7, 56, 57, 58, 59, 40, 41, 42, 43, 24, 25, 26, 27, 8, 9, 10, 11, 60, 61, 62, 63, 44, 45, 46, 47, 28, 29, 30, 31, 12, 13, 14, 15]),
  ([60, 44, 28, 12, 61, 45, 29, 13, 62, 46, 30, 14, 63, 47, 31, 15, 56, 40, 24, 8, 57, 41, 25, 9, 58, 42, 26, 10, 59, 43, 27, 11, 52, 36, 20, 4, 53, 37, 21, 5, 54, 38, 22, 6, 55, 39, 23, 7, 48, 32, 16, 0, 49, 33, 17, 1, 50, 34, 18, 2, 51, 35, 19, 3],
   [51, 55, 59, 63, 35, 39, 43, 47, 19, 23, 27, 31, 3, 7, 11, 15, 50, 54, 58, 62, 34, 38, 42, 46, 18, 22, 26, 30, 2, 6, 10, 14, 49, 53, 57, 61, 33, 37, 41, 45, 17, 21, 25, 29, 1, 5, 9, 13, 48, 52, 56, 60, 32, 36, 40, 44, 16, 20, 24, 28, 0, 4, 8, 12])
]

theorem cubeRotationPairs_fst : cubeRotationPairs.map Prod.fst = cubeRotations := by rfl

theorem cubeRotationPairs_inv :
    ∀ p ∈ cubeRotationPairs, pcomp p.1 p.2 = idPerm ∧ pcomp p.2 p.1 = idPerm ∧
      PermOK p.1 ∧ PermOK p.2 := by decide

theorem exists_inv_of_mem_cubeRotations {sigma : List Nat} (h : sigma ∈ cubeRotations) :
    ∃ tau, pcomp sigma tau = idPerm ∧ pcomp tau sigma = idPerm ∧ PermOK sigma ∧ PermOK tau := by
  rw [← cubeRotationPairs_fst] at h
  obtain ⟨p, hp, he⟩ := List.mem_map.mp h
  obtain ⟨h1, h2, h3, h4⟩ := cubeRotationPairs_inv p hp
  subst he
  exact ⟨p.2, h1, h2, h3, h4⟩

theorem countOnes_applyPerm_of_inv {sigma tau : List Nat}
    (hst : pcomp sigma tau = idPerm) (hts : pcomp tau sigma = idPerm)
    (hs : PermOK sigma) (ht : PermOK tau) (v : Nat) :
    countOnes (applyPerm sigma v) = countOnes v := by
  have hentry : ∀ {p q : List Nat}, pcomp p q = idPerm → PermOK q →
      ∀ j, j < 64 → p.getD (q.getD j 0) 0 = j := by
    intro p q hpq hq j hj
    have hlen : j < q.length := by rw [hq.1]; exact hj
    have := congrArg (fun l => l.getD j 0) hpq
    simp only at this
    rw [pcomp, getD_map_lt hlen, idPerm, getD_range hj] at this
    exact this
  rw [countOnes, countOnes]
  apply Finset.card_nbij' (fun i => sigma.getD i 0) (fun j => tau.getD j 0)
  · intro i hi
    simp only [Finset.mem_coe, Finset.mem_filter, Finset.mem_range] at hi ⊢
    obtain ⟨hi64, hbit⟩ := hi
    rw [applyPerm_testBit, decide_eq_true hi64, Bool.true_and] at hbit
    have hlen : i < sigma.length := by rw [hs.1]; exact hi64
    exact ⟨hs.2 _ (getD_mem hlen 0), hbit⟩
  · intro j hj
    simp only [Finset.mem_coe, Finset.mem_filter, Finset.mem_range] at hj ⊢
    obtain ⟨hj64, hbit⟩ := hj
    have hlen : j < tau.length := by rw [ht.1]; exact hj64
    have htl : tau.getD j 0 < 64 := ht.2 _ (getD_mem hlen 0)
    refine ⟨htl, ?_⟩
    rw [applyPerm_testBit, decide_eq_true htl, Bool.true_and, hentry hst ht j hj64]
    exact hbit
  · intro i hi
    simp only [Finset.mem_coe, Finset.mem_filter, Finset.mem_range] at hi
    exact hentry hts hs i hi.1
  · intro j hj
    simp only [Finset.mem_coe, Finset.mem_filter, Finset.mem_range] at hj
    exact hentry hst ht j hj.1

theorem rotOrbitList_countOnes {piece : Nat} :
    ∀ m ∈ rotOrbitList piece, countOnes m = countOnes piece := by
  intro m hm
  rw [rotOrbitList_eq_map] at hm
  obtain ⟨tau, htau, heq⟩ := List.mem_map.mp hm
  obtain ⟨inv, h1, h2, h3, h4⟩ := exists_inv_of_mem_cubeRotations
    (isRotation_mem_cubeRotations (visitedPerms_isRotation tau htau))
  rw [← heq]
  exact countOnes_applyPerm_of_inv h1 h2 h3 h4 piece

/-- Offsets swept by the translation phase of generate_placements: dz, dy, dx
each over [-4, 4), z outermost, as iterated by the nested loops. -/
def offsetList : List (Int × Int × Int) :=
  (List.range 8).flatMap (fun z =>
    (List.range 8).flatMap (fun y =>
      (List.range 8).map (fun x => ((z : Int) - 4, (y : Int) - 4, (x : Int) - 4))))

/-- generate_placements from the source: collect the rotation orbit of the
piece, then every in-cube translation of each orbit member that preserves the
set-bit count.  Membership in this list is membership in the generated set. -/
def generate_placements (piece : Nat) : List Nat :=
  rotOrbitList piece ++ (rotOrbitList piece).flatMap (fun p =>
    offsetList.flatMap (fun o =>
      if countOnes (translate p o.2.2 o.2.1 o.1) = countOnes piece then
        [translate p o.2.2 o.2.1 o.1] else []))

/-- C2: the set of masks collected by the nested 4x4x4 rotation sequence in
generate_placements is the full rotation orbit of the volume: the image of
the volume under each of the 24 cube rotations is in the set, every member
of the set is some cube rotation of the volume, and there are exactly 24
cube rotations. -/
theorem generate_placements_rotation_orbit (piece : Nat) :
    (∀ sigma, IsRotation sigma → applyPerm sigma piece ∈ rotOrbitList piece) ∧
    (∀ m ∈ rotOrbitList piece, ∃ sigma, IsRotation sigma ∧ m = applyPerm sigma piece) ∧
    cubeRotations.length = 24 := by
  refine ⟨?_, ?_, cubeRotations_card⟩
  · intro sigma hs
    rw [rotOrbitList_eq_map]
    exact List.mem_map.mpr
      ⟨sigma, cubeRotations_sub_visited sigma (isRotation_mem_cubeRotations hs), rfl⟩
  · intro m hm
    rw [rotOrbitList_eq_map] at hm
    obtain ⟨tau, htau, heq⟩ := List.mem_map.mp hm
    exact ⟨tau, visitedPerms_isRotation tau htau, heq.symm⟩

theorem generate_placements_rotation_orbit_witness :
    applyPerm (axisPerm Axis.X) 3 ∈ rotOrbitList 3 :=
  (generate_placements_rotation_orbit 3).1 (axisPerm Axis.X)
    ((isRotation_iff_mem (axisPerm Axis.X)).mpr (by decide))

/-- C6: every mask produced by generate_placements has the same set-bit count
as the base piece volume. -/
theorem generate_placements_count (piece : Nat) :
    ∀ m ∈ generate_placements piece, countOnes m = countOnes piece := by
  intro m hm
  rw [generate_placements] at hm
  rcases List.mem_append.mp hm with h | h
  · exact rotOrbitList_countOnes m h
  · obtain ⟨p, hp2, h2⟩ := List.mem_flatMap.mp h
    obtain ⟨o, ho, h3⟩ := List.mem_flatMap.mp h2
    split at h3
    · rename_i hc
      rw [List.mem_singleton] at h3
      subst h3
      exact hc
    · exact absurd h3 (List.not_mem_nil m)

theorem generate_placements_count_witness :
    applyPerm (axisPerm Axis.X) 3 ∈ generate_placements 3 ∧
    countOnes (applyPerm (axisPerm Axis.X) 3) = countOnes 3 :=
  have hmem : applyPerm (axisPerm Axis.X) 3 ∈ generate_placements 3 :=
    List.mem_append_left _ (by
      rw [rotOrbitList_eq_map]
      exact List.mem_map.mpr
        ⟨axisPerm Axis.X, cubeRotations_sub_visited (axisPerm Axis.X) (by decide), rfl⟩)
  ⟨hmem, generate_placements_count 3 (applyPerm (axisPerm Axis.X) 3) hmem⟩

/-- C8: rotating a u64 volume four times about the same axis returns the
original volume exactly, for each of the three axes. -/
theorem rotate_90_four_times (v : Nat) (hv : v < 2 ^ 64) (a : Axis) :
    rotate_piece_90 (rotate_piece_90 (rotate_piece_90 (rotate_piece_90 v a) a) a) a = v := by
  have h4 : pcomp (pcomp (pcomp (axisPerm a) (axisPerm a)) (axisPerm a)) (axisPerm a)
      = idPerm := by
    cases a <;> decide
  simp only [rotate_eq_applyPerm]
  rw [applyPerm_applyPerm (axisPerm_ok a) (axisPerm a) v,
    applyPerm_applyPerm (axisPerm_ok a) (pcomp (axisPerm a) (axisPerm a)) v,
    applyPerm_applyPerm (axisPerm_ok a) (pcomp (pcomp (axisPerm a) (axisPerm a)) (axisPerm a)) v,
    h4, applyPerm_idPerm hv]

theorem rotate_90_four_times_witness :
    (5 : Nat) < 2 ^ 64 ∧
      rotate_piece_90 (rotate_piece_90 (rotate_piece_90 (rotate_piece_90 5 Axis.X) Axis.X)
        Axis.X) Axis.X = 5 :=
  ⟨by decide, rotate_90_four_times 5 (by decide) Axis.X⟩

theorem translate_testBit_iff (v : Nat) (dx dy dz : Int) (j : Nat) :
    (translate v dx dy dz).testBit j = true ↔
      ∃ x y z : Nat, x < 4 ∧ y < 4 ∧ z < 4 ∧
        ((x : Int) + dx < 4 ∧ (y : Int) + dy < 4 ∧ (z : Int) + dz < 4 ∧
          0 ≤ (x : Int) + dx ∧ 0 ≤ (y : Int) + dy ∧ 0 ≤ (z : Int) + dz) ∧
        v.testBit (x * 16 + y * 4 + z) = true ∧
        j = ((x : Int) + dx).toNat * 16 + ((y : Int) + dy).toNat * 4 + ((z : Int) + dz).toNat := by
  rw [translate_testBit, List.any_eq_true]
  constructor
  · rintro ⟨c, hc, hb⟩
    obtain ⟨cz, cy, cx⟩ := c
    rw [mem_cellList] at hc
    simp only [Bool.and_eq_true, decide_eq_true_eq] at hb
    obtain ⟨⟨hcond, hub⟩, hj⟩ := hb
    rw [unpack_bit_eq_testBit] at hub
    exact ⟨cx, cy, cz, hc.2.2, hc.2.1, hc.1, hcond, hub, hj⟩
  · rintro ⟨x, y, z, hx, hy, hz, hcond, hb, hj⟩
    refine ⟨(z, y, x), ?_, ?_⟩
    · rw [mem_cellList]
      exact ⟨hz, hy, hx⟩
    · simp only [Bool.and_eq_true, decide_eq_true_eq]
      exact ⟨⟨hcond, by rw [unpack_bit_eq_testBit]; exact hb⟩, hj⟩

set_option maxHeartbeats 1000000 in
/-- C9: translation never increases the set-bit count, and preserves it
exactly when no occupied cell is pushed outside [0, 4) on any axis. -/
theorem translate_count (v : Nat) (dx dy dz : Int) :
    countOnes (translate v dx dy dz) ≤ countOnes v ∧
    (countOnes (translate v dx dy dz) = countOnes v ↔
      ∀ x y z : Nat, x < 4 → y < 4 → z < 4 → unpack_bit v x y z = true →
        ((x : Int) + dx < 4 ∧ (y : Int) + dy < 4 ∧ (z : Int) + dz < 4 ∧
          0 ≤ (x : Int) + dx ∧ 0 ≤ (y : Int) + dy ∧ 0 ≤ (z : Int) + dz)) := by
  classical
  set S := (Finset.range 64).filter (fun i => v.testBit i) with hS
  set InR := S.filter (fun i =>
    ((i / 16 : Nat) : Int) + dx < 4 ∧ ((i / 4 % 4 : Nat) : Int) + dy < 4 ∧
    ((i % 4 : Nat) : Int) + dz < 4 ∧ 0 ≤ ((i / 16 : Nat) : Int) + dx ∧
    0 ≤ ((i / 4 % 4 : Nat) : Int) + dy ∧ 0 ≤ ((i % 4 : Nat) : Int) + dz) with hInR
  have hcardT : countOnes (translate v dx dy dz) = InR.card := by
    rw [countOnes]
    apply Finset.card_nbij'
      (fun (j : Nat) => (((j / 16 : Nat) : Int) - dx).toNat * 16 +
        (((j / 4 % 4 : Nat) : Int) - dy).toNat * 4 + (((j % 4 : Nat) : Int) - dz).toNat)
      (fun (i : Nat) => (((i / 16 : Nat) : Int) + dx).toNat * 16 +
        (((i / 4 % 4 : Nat) : Int) + dy).toNat * 4 + (((i % 4 : Nat) : Int) + dz).toNat)
    · intro j hj
      simp only [Finset.mem_coe, Finset.mem_filter, Finset.mem_range] at hj
      obtain ⟨hj64, hbit⟩ := hj
      obtain ⟨x, y, z, hx, hy, hz, hcond, hb, hje⟩ :=
        (translate_testBit_iff v dx dy dz j).mp hbit
      obtain ⟨h1, h2, h3, h4, h5, h6⟩ := hcond
      have ex : (((j / 16 : Nat) : Int) - dx).toNat = x := by omega
      have ey : (((j / 4 % 4 : Nat) : Int) - dy).toNat = y := by omega
      have ez : (((j % 4 : Nat) : Int) - dz).toNat = z := by omega
      rw [hInR, hS]
      simp only [Finset.mem_coe, Finset.mem_filter, Finset.mem_range, ex, ey, ez]
      refine ⟨⟨by omega, ?_⟩, by omega, by omega, by omega, by omega, by omega, by omega⟩
      exact hb
    · intro i hi
      rw [hInR, hS] at hi
      simp only [Finset.mem_coe, Finset.mem_filter, Finset.mem_range] at hi
      obtain ⟨⟨hi64, hbit⟩, h1, h2, h3, h4, h5, h6⟩ := hi
      simp only [Finset.mem_coe, Finset.mem_filter, Finset.mem_range]
      constructor
      · omega
      · apply (translate_testBit_iff v dx dy dz _).mpr
        refine ⟨i / 16, i / 4 % 4, i % 4, by omega, by omega, by omega,
          ⟨h1, h2, h3, h4, h5, h6⟩, ?_, rfl⟩
        have hxyz : i / 16 * 16 + i / 4 % 4 * 4 + i % 4 = i := by omega
        rw [hxyz]
        exact hbit
    · intro j hj
      simp only [Finset.mem_coe, Finset.mem_filter, Finset.mem_range] at hj
      obtain ⟨hj64, hbit⟩ := hj
      obtain ⟨x, y, z, hx, hy, hz, hcond, hb, hje⟩ :=
        (translate_testBit_iff v dx dy dz j).mp hbit
      obtain ⟨h1, h2, h3, h4, h5, h6⟩ := hcond
      have ex : (((j / 16 : Nat) : Int) - dx).toNat = x := by omega
      have ey : (((j / 4 % 4 : Nat) : Int) - dy).toNat = y := by omega
      have ez : (((j % 4 : Nat) : Int) - dz).toNat = z := by omega
      simp only [ex, ey, ez]
      have e1 : (x * 16 + y * 4 + z) / 16 = x := by omega
      have e2 : (x * 16 + y * 4 + z) / 4 % 4 = y := by omega
      have e3 : (x * 16 + y * 4 + z) % 4 = z := by omega
      rw [e1, e2, e3]
      omega
    · intro i hi
      rw [hInR, hS] at hi
      simp only [Finset.mem_coe, Finset.mem_filter, Finset.mem_range] at hi
      obtain ⟨⟨hi64, hbit⟩, h1, h2, h3, h4, h5, h6⟩ := hi
      have t1 : (((i / 16 : Nat) : Int) + dx).toNat < 4 := by omega
      have t2 : (((i / 4 % 4 : Nat) : Int) + dy).toNat < 4 := by omega
      have t3 : (((i % 4 : Nat) : Int) + dz).toNat < 4 := by omega
      have d1 : ((((i / 16 : Nat) : Int) + dx).toNat * 16 +
          (((i / 4 % 4 : Nat) : Int) + dy).toNat * 4 + (((i % 4 : Nat) : Int) + dz).toNat) / 16
          = (((i / 16 : Nat) : Int) + dx).toNat := by omega
      have d2 : ((((i / 16 : Nat) : Int) + dx).toNat * 16 +
          (((i / 4 % 4 : Nat) : Int) + dy).toNat * 4 + (((i % 4 : Nat) : Int) + dz).toNat) / 4 % 4
          = (((i / 4 % 4 : Nat) : Int) + dy).toNat := by omega
      have d3 : ((((i / 16 : Nat) : Int) + dx).toNat * 16 +
          (((i / 4 % 4 : Nat) : Int) + dy).toNat * 4 + (((i % 4 : Nat) : Int) + dz).toNat) % 4
          = (((i % 4 : Nat) : Int) + dz).toNat := by omega
      rw [d1, d2, d3]
      omega
  have hcardS : countOnes v = S.card := by rw [countOnes, hS]
  have hsub : InR ⊆ S := Finset.filter_subset _ _
  constructor
  · rw [hcardT, hcardS]
    exact Finset.card_le_card hsub
  · rw [hcardT, hcardS]
    constructor
    · intro hcard x y z hx hy hz hub
      have heq : InR = S := Finset.eq_of_subset_of_card_le hsub (le_of_eq hcard.symm)
      rw [unpack_bit_eq_testBit] at hub
      have hmem : (x * 16 + y * 4 + z) ∈ S := by
        rw [hS]
        simp only [Finset.mem_filter, Finset.mem_range]
        exact ⟨by omega, hub⟩
      rw [← heq, hInR] at hmem
      have hc2 := (Finset.mem_filter.mp hmem).2
      obtain ⟨h1, h2, h3, h4, h5, h6⟩ := hc2
      refine ⟨by omega, by omega, by omega, by omega, by omega, by omega⟩
    · intro hall
      have heq : InR = S := by
        rw [hInR]
        apply Finset.filter_true_of_mem
        intro i hi
        rw [hS] at hi
        simp only [Finset.mem_filter, Finset.mem_range] at hi
        have hub : unpack_bit v (i / 16) (i / 4 % 4) (i % 4) = true := by
          rw [unpack_bit_eq_testBit]
          have hxyz : i / 16 * 16 + i / 4 % 4 * 4 + i % 4 = i := by omega
          rw [hxyz]
          exact hi.2
        obtain ⟨h1, h2, h3, h4, h5, h6⟩ :=
          hall (i / 16) (i / 4 % 4) (i % 4) (by omega) (by omega) (by omega) hub
        exact ⟨h1, h2, h3, h4, h5, h6⟩
      rw [heq]

theorem and_one_shift_ne_zero (n i : Nat) : (n &&& (1 <<< i) != 0) = n.testBit i := by
  rw [Nat.shiftLeft_eq, one_mul]
  cases h : n.testBit i
  · have hz : n &&& 2 ^ i = 0 := by
      apply Nat.eq_of_testBit_eq
      intro k
      rw [Nat.testBit_and, Nat.zero_testBit, Nat.testBit_two_pow]
      by_cases hk : i = k
      · subst hk
        rw [h, Bool.false_and]
      · simp [hk]
    rw [hz]
    rfl
  · have ht : (n &&& 2 ^ i).testBit i = true := by
      rw [Nat.testBit_and, h, Nat.testBit_two_pow]
      simp
    have hne : n &&& 2 ^ i ≠ 0 := by
      intro h0
      rw [h0, Nat.zero_testBit] at ht
      exact Bool.noConfusion ht
    simpa using hne

/-- Coverage index built in main: bit_map[bi][pi] lists, in order, the
placements of piece pi whose mask covers cube bit bi. -/
def build_bit_map (piece_placements : List (List Nat)) : List (List (List Nat)) :=
  (List.range CUBE_NUM_BITS).map (fun bi =>
    (List.range NUM_PIECES).map (fun pi =>
      (piece_placements.getD pi []).filter (fun placement => placement &&& (1 <<< bi) != 0)))

/-- Entry (bi, pi) of a coverage index; out-of-range indices give the empty
list (where the source indexing would panic; see C10). -/
def bitMapEntry (bit_map : List (List (List Nat))) (bi pi : Nat) : List Nat :=
  (bit_map.getD bi []).getD pi []

/-- C5: for every cell index c < 64 and piece id p < 13, the coverage index
entry (c, p) holds every placement of piece p whose mask has bit c set, and
holds no placement whose mask lacks bit c. -/
theorem bit_map_complete (piece_placements : List (List Nat)) (c p : Nat)
    (hc : c < 64) (hp : p < 13) :
    (∀ m ∈ piece_placements.getD p [], m.testBit c = true →
        m ∈ bitMapEntry (build_bit_map piece_placements) c p) ∧
    (∀ m ∈ bitMapEntry (build_bit_map piece_placements) c p, m.testBit c = true) := by
  have hentry : bitMapEntry (build_bit_map piece_placements) c p
      = (piece_placements.getD p []).filter (fun placement => placement &&& (1 <<< c) != 0) := by
    rw [bitMapEntry, build_bit_map, getD_range_map hc, getD_range_map hp]
  constructor
  · intro m hm hbit
    rw [hentry, List.mem_filter]
    refine ⟨hm, ?_⟩
    rw [and_one_shift_ne_zero]
    exact hbit
  · intro m hm
    rw [hentry, List.mem_filter] at hm
    rw [← and_one_shift_ne_zero m c]
    exact hm.2

theorem bit_map_complete_witness :
    (∀ m ∈ ([[1]] : List (List Nat)).getD 0 [], m.testBit 0 = true →
        m ∈ bitMapEntry (build_bit_map [[1]]) 0 0) ∧
    (∀ m ∈ bitMapEntry (build_bit_map [[1]]) 0 0, m.testBit 0 = true) :=
  bit_map_complete [[1]] 0 0 (by decide) (by decide)

theorem getD_set_self {α : Type} {l : List α} {p : Nat} (h : p < l.length) (m d : α) :
    (l.set p m).getD p d = m := by
  rw [List.getD_eq_getElem?_getD, List.getElem?_set_self h]
  rfl

theorem getD_set_ne {α : Type} {l : List α} {p q : Nat} (h : p ≠ q) (m : α) (d : α) :
    (l.set p m).getD q d = l.getD q d := by
  rw [List.getD_eq_getElem?_getD, List.getElem?_set_ne h, List.getD_eq_getElem?_getD]

theorem foldl_induction {α β : Type} (l : List α) (step : β → α → β) (I : β → Prop)
    (acc : β) (h0 : I acc) (hs : ∀ b a, a ∈ l → I b → I (step b a)) :
    I (l.foldl step acc) := by
  induction l generalizing acc with
  | nil => exact h0
  | cons x l ih =>
    rw [List.foldl_cons]
    exact ih (step acc x) (hs acc x (List.mem_cons_self x l) h0)
      (fun b a ha hb => hs b a (List.mem_cons_of_mem x ha) hb)

/-- One level of the search from the source: record the picks as a solution
when all 13 pieces are used; otherwise try every unused piece and every
placement of it listed for the first empty cell, recursing through the given
continuation.  Returns the final pick-array state and the solutions pushed,
in push order. -/
def searchBody (bit_map : List (List (List Nat)))
    (recur : Nat → Nat → List Nat → List Nat × List (List Nat))
    (state used_pieces : Nat) (picks : List Nat) : List Nat × List (List Nat) :=
  if countOnes used_pieces = NUM_PIECES then (picks, [picks])
  else
    (List.range NUM_PIECES).foldl (fun acc piece =>
      if used_pieces &&& (1 <<< piece) != 0 then acc
      else
        (bitMapEntry bit_map (trailingOnes state) piece).foldl (fun acc2 permutation =>
          if permutation &&& state == 0 then
            ((recur (state ||| permutation) (used_pieces ||| (1 <<< piece))
                (acc2.1.set piece permutation)).1,
             acc2.2 ++ (recur (state ||| permutation) (used_pieces ||| (1 <<< piece))
                (acc2.1.set piece permutation)).2)
          else acc2) acc) (picks, [])

/-- Fuel-indexed search; the fuel only bounds the recursion depth, which
never exceeds NUM_PIECES + 1 (theorem search_terminates). -/
def searchFuel (bit_map : List (List (List Nat))) :
    Nat → Nat → Nat → List Nat → List Nat × List (List Nat)
  | 0, _, _, picks => (picks, [])
  | fuel + 1, state, used_pieces, picks =>
    searchBody bit_map (searchFuel bit_map fuel) state used_pieces picks

/-- search from the source, supplied with enough fuel for its recursion. -/
def search (bit_map : List (List (List Nat))) (state used_pieces : Nat)
    (picks : List Nat) : List Nat × List (List Nat) :=
  searchFuel bit_map (NUM_PIECES + 1) state used_pieces picks

/-- Well-formed coverage index relative to per-piece bit counts: every listed
mask is a u64 value that covers its cell bit and has the bit count of its
piece.  The index built in main from generated placements satisfies this. -/
abbrev WFBitMap (bit_map : List (List (List Nat))) (cnt : Nat → Nat) : Prop :=
  ∀ bi ∈ List.range 65, ∀ p ∈ List.range NUM_PIECES, ∀ m ∈ bitMapEntry bit_map bi p,
    m < 2 ^ 64 ∧ m.testBit bi = true ∧ countOnes m = cnt p

/-- Union of the picked placements of the used pieces. -/
def pickedOr (used_pieces : Nat) (picks : List Nat) : Nat :=
  (List.range NUM_PIECES).foldl (fun acc p =>
    acc ||| (if used_pieces.testBit p then picks.getD p 0 else 0)) 0

/-- Union of all 13 pick entries of a recorded solution. -/
def solutionUnion (sol : List Nat) : Nat :=
  (List.range NUM_PIECES).foldl (fun acc p => acc ||| sol.getD p 0) 0

/-- Total bit count of the used pieces, by per-piece counts. -/
def usedSum (cnt : Nat → Nat) (used_pieces : Nat) : Nat :=
  ∑ p ∈ (Finset.range NUM_PIECES).filter (fun p => used_pieces.testBit p), cnt p

/-- Total bit count of all 13 pieces. -/
def cntSum (cnt : Nat → Nat) : Nat := ∑ p ∈ Finset.range NUM_PIECES, cnt p

/-- Exact cover property of a recorded solution: pairwise disjoint placement
masks whose union is the full cube. -/
def ExactCover (sol : List Nat) : Prop :=
  (∀ p q, p < NUM_PIECES → q < NUM_PIECES → p ≠ q →
    sol.getD p 0 &&& sol.getD q 0 = 0) ∧
  solutionUnion sol = 2 ^ 64 - 1

/-- Invariant of the search state along a path: the state mask is exactly the
union of the picks of the used pieces, its bit count is the total count of
the used pieces, and used picks are pairwise disjoint. -/
def SearchInv (cnt : Nat → Nat) (state used_pieces : Nat) (picks : List Nat) : Prop :=
  state < 2 ^ 64 ∧ used_pieces < 2 ^ NUM_PIECES ∧ picks.length = NUM_PIECES ∧
  state = pickedOr used_pieces picks ∧
  countOnes state = usedSum cnt used_pieces ∧
  (∀ p q, p < NUM_PIECES → q < NUM_PIECES → p ≠ q → used_pieces.testBit p = true →
    used_pieces.testBit q = true → picks.getD p 0 &&& picks.getD q 0 = 0)

theorem pickedOr_testBit (u : Nat) (pk : List Nat) (i : Nat) :
    (pickedOr u pk).testBit i =
      (List.range NUM_PIECES).any (fun p => u.testBit p && (pk.getD p 0).testBit i) := by
  rw [pickedOr, testBit_foldl (fun p => if u.testBit p then pk.getD p 0 else 0) _
    (fun acc x j => Nat.testBit_or _ _ _)]
  simp only [Nat.zero_testBit, Bool.false_or]
  apply list_any_congr
  intro p hp
  cases h : u.testBit p
  · rw [if_neg Bool.false_ne_true, Nat.zero_testBit, Bool.false_and]
  · rw [if_pos rfl, Bool.true_and]

theorem solutionUnion_testBit (sol : List Nat) (i : Nat) :
    (solutionUnion sol).testBit i =
      (List.range NUM_PIECES).any (fun p => (sol.getD p 0).testBit i) := by
  rw [solutionUnion, testBit_foldl (fun p => sol.getD p 0) _
    (fun acc x j => Nat.testBit_or _ _ _)]
  rw [Nat.zero_testBit, Bool.false_or]

theorem countOnes_two_pow {p : Nat} (hp : p < 64) : countOnes (2 ^ p) = 1 := by
  rw [countOnes]
  have h : (Finset.range 64).filter (fun i => (2 ^ p).testBit i) = {p} := by
    ext i
    simp only [Finset.mem_filter, Finset.mem_range, Finset.mem_singleton,
      Nat.testBit_two_pow, decide_eq_true_eq]
    constructor
    · intro hi
      exact hi.2.symm
    · intro hi
      subst hi
      exact ⟨hp, rfl⟩
  rw [h]
  rfl

theorem and_shift_eq_zero {u p : Nat} (h : u.testBit p = false) : u &&& (1 <<< p) = 0 := by
  rw [Nat.shiftLeft_eq, one_mul]
  apply Nat.eq_of_testBit_eq
  intro k
  rw [Nat.testBit_and, Nat.zero_testBit, Nat.testBit_two_pow]
  by_cases hk : p = k
  · subst hk
    rw [h, Bool.false_and]
  · simp [hk]

theorem testBit_or_shift (u p q : Nat) :
    (u ||| (1 <<< p)).testBit q = (u.testBit q || decide (p = q)) := by
  rw [Nat.testBit_or, Nat.shiftLeft_eq, one_mul, Nat.testBit_two_pow]

theorem countOnes_or_shift {u p : Nat} (hp : p < 64) (h : u.testBit p = false) :
    countOnes (u ||| (1 <<< p)) = countOnes u + 1 := by
  rw [countOnes_or_disjoint (and_shift_eq_zero h), Nat.shiftLeft_eq, one_mul,
    countOnes_two_pow hp]

theorem usedSum_insert {cnt : Nat → Nat} {u p : Nat} (hp : p < NUM_PIECES)
    (h : u.testBit p = false) :
    usedSum cnt (u ||| (1 <<< p)) = usedSum cnt u + cnt p := by
  rw [usedSum, usedSum]
  have hf : (Finset.range NUM_PIECES).filter (fun q => (u ||| (1 <<< p)).testBit q)
      = insert p ((Finset.range NUM_PIECES).filter (fun q => u.testBit q)) := by
    ext q
    simp only [Finset.mem_filter, Finset.mem_range, Finset.mem_insert, testBit_or_shift,
      Bool.or_eq_true, decide_eq_true_eq]
    constructor
    · rintro ⟨hq, hb | he⟩
      · exact Or.inr ⟨hq, hb⟩
      · exact Or.inl he.symm
    · rintro (he | ⟨hq, hb⟩)
      · subst he
        exact ⟨hp, Or.inr rfl⟩
      · exact ⟨hq, Or.inl hb⟩
  rw [hf, Finset.sum_insert (by simp [h]), Nat.add_comm]

theorem shift_lt_two_pow {p n : Nat} (h : p < n) : 1 <<< p < 2 ^ n := by
  rw [Nat.shiftLeft_eq, one_mul]
  exact Nat.pow_lt_pow_right (by omega) h

theorem pickedOr_congr {u : Nat} {pk1 pk2 : List Nat}
    (h : ∀ p, p < NUM_PIECES → u.testBit p = true → pk1.getD p 0 = pk2.getD p 0) :
    pickedOr u pk1 = pickedOr u pk2 := by
  apply Nat.eq_of_testBit_eq
  intro i
  rw [pickedOr_testBit, pickedOr_testBit]
  apply list_any_congr
  intro p hp
  cases hb : u.testBit p
  · rw [Bool.false_and, Bool.false_and]
  · rw [Bool.true_and, Bool.true_and, h p (List.mem_range.mp hp) hb]

theorem pickedOr_set {u p m : Nat} {pk : List Nat} (hp : p < NUM_PIECES)
    (hu : u.testBit p = false) (hlen : pk.length = NUM_PIECES) :
    pickedOr (u ||| (1 <<< p)) (pk.set p m) = pickedOr u pk ||| m := by
  have hplen : p < pk.length := by rw [hlen]; exact hp
  apply Nat.eq_of_testBit_eq
  intro i
  rw [Nat.testBit_or, pickedOr_testBit, pickedOr_testBit]
  apply Bool.eq_iff_iff.mpr
  simp only [List.any_eq_true, List.mem_range, Bool.and_eq_true, Bool.or_eq_true]
  constructor
  · rintro ⟨q, hq, hbq, hbit⟩
    rw [testBit_or_shift] at hbq
    by_cases hpq : p = q
    · subst hpq
      rw [getD_set_self hplen] at hbit
      exact Or.inr hbit
    · rw [getD_set_ne hpq] at hbit
      rcases Bool.or_eq_true_iff.mp hbq with htq | hde
      · exact Or.inl ⟨q, hq, htq, hbit⟩
      · exact absurd (of_decide_eq_true hde) hpq
  · rintro (⟨q, hq, hbq, hbit⟩ | hm)
    · have hqp : p ≠ q := by
        intro he
        rw [he, hbq] at hu
        exact Bool.noConfusion hu
      refine ⟨q, hq, ?_, ?_⟩
      · rw [testBit_or_shift, hbq, Bool.true_or]
      · rw [getD_set_ne hqp]
        exact hbit
    · refine ⟨p, hp, ?_, ?_⟩
      · rw [testBit_or_shift]
        simp
      · rw [getD_set_self hplen]
        exact hm

theorem pick_subset_state {u s : Nat} {pk : List Nat} (hs : s = pickedOr u pk)
    {q : Nat} (hq : q < NUM_PIECES) (hbq : u.testBit q = true) {i : Nat}
    (hbit : (pk.getD q 0).testBit i = true) : s.testBit i = true := by
  rw [hs, pickedOr_testBit]
  apply List.any_eq_true.mpr
  refine ⟨q, List.mem_range.mpr hq, ?_⟩
  rw [hbq, Bool.true_and]
  exact hbit

theorem disjoint_pick {u s m : Nat} {pk : List Nat} (hs : s = pickedOr u pk)
    (hms : m &&& s = 0) {q : Nat} (hq : q < NUM_PIECES) (hbq : u.testBit q = true) :
    m &&& pk.getD q 0 = 0 := by
  apply Nat.eq_of_testBit_eq
  intro i
  rw [Nat.testBit_and, Nat.zero_testBit]
  cases hm : m.testBit i
  · rw [Bool.false_and]
  · cases hpk : (pk.getD q 0).testBit i
    · rw [Bool.and_false]
    · have hsi := pick_subset_state hs hq hbq hpk
      have h2 := congrArg (fun n => n.testBit i) hms
      simp only [Nat.testBit_and, Nat.zero_testBit] at h2
      rw [hm, hsi] at h2
      exact Bool.noConfusion h2

theorem solutionUnion_eq_pickedOr {u : Nat} {pk : List Nat}
    (hall : ∀ p, p < NUM_PIECES → u.testBit p = true) :
    solutionUnion pk = pickedOr u pk := by
  apply Nat.eq_of_testBit_eq
  intro i
  rw [solutionUnion_testBit, pickedOr_testBit]
  apply list_any_congr
  intro p hp
  rw [hall p (List.mem_range.mp hp), Bool.true_and]

theorem usedSum_full {cnt : Nat → Nat} {u : Nat}
    (hall : ∀ p, p < NUM_PIECES → u.testBit p = true) :
    usedSum cnt u = cntSum cnt := by
  rw [usedSum, cntSum, Finset.filter_true_of_mem]
  intro p hp
  exact hall p (Finset.mem_range.mp hp)

theorem searchFuel_sound (bit_map : List (List (List Nat))) (cnt : Nat → Nat)
    (hwf : WFBitMap bit_map cnt) (hsum : cntSum cnt = 64) :
    ∀ (fuel state used_pieces : Nat) (picks : List Nat),
      SearchInv cnt state used_pieces picks →
      ((searchFuel bit_map fuel state used_pieces picks).1.length = picks.length ∧
       (∀ p, p < NUM_PIECES → used_pieces.testBit p = true →
         (searchFuel bit_map fuel state used_pieces picks).1.getD p 0 = picks.getD p 0)) ∧
      (∀ sol ∈ (searchFuel bit_map fuel state used_pieces picks).2, ExactCover sol) := by
  intro fuel
  induction fuel with
  | zero =>
    intro state used_pieces picks _
    rw [searchFuel]
    exact ⟨⟨rfl, fun p hp hb => rfl⟩, fun sol hsol => absurd hsol (List.not_mem_nil sol)⟩
  | succ fuel ih =>
    intro state used_pieces picks hinv
    obtain ⟨hs64, hu13, hlen, hpicked, hcount, hdisj⟩ := hinv
    rw [searchFuel, searchBody]
    by_cases hterm : countOnes used_pieces = NUM_PIECES
    · rw [if_pos hterm]
      refine ⟨⟨rfl, fun p hp hb => rfl⟩, ?_⟩
      intro sol hsol
      rw [List.mem_singleton] at hsol
      subst hsol
      have hall : ∀ p, p < NUM_PIECES → used_pieces.testBit p = true :=
        all_testBit_of_countOnes hu13 (by decide) hterm
      constructor
      · intro p q hp hq hpq
        exact hdisj p q hp hq hpq (hall p hp) (hall q hq)
      · rw [solutionUnion_eq_pickedOr hall, ← hpicked]
        apply eq_full_of_countOnes hs64
        rw [hcount, usedSum_full hall, hsum]
    · rw [if_neg hterm]
      apply foldl_induction _ _ (fun acc : List Nat × List (List Nat) =>
        (acc.1.length = picks.length ∧
          (∀ p, p < NUM_PIECES → used_pieces.testBit p = true →
            acc.1.getD p 0 = picks.getD p 0)) ∧
        (∀ sol ∈ acc.2, ExactCover sol))
      · exact ⟨⟨rfl, fun p hp hb => rfl⟩, fun sol hsol => absurd hsol (List.not_mem_nil sol)⟩
      · intro b piece hpiece hI
        rw [List.mem_range] at hpiece
        by_cases hused : (used_pieces &&& (1 <<< piece) != 0) = true
        · rw [if_pos hused]
          exact hI
        · rw [if_neg hused]
          have hufalse : used_pieces.testBit piece = false := by
            rw [← and_one_shift_ne_zero]
            exact Bool.not_eq_true _ ▸ (Bool.of_not_eq_true hused)
          apply foldl_induction _ _ (fun acc : List Nat × List (List Nat) =>
            (acc.1.length = picks.length ∧
              (∀ p, p < NUM_PIECES → used_pieces.testBit p = true →
                acc.1.getD p 0 = picks.getD p 0)) ∧
            (∀ sol ∈ acc.2, ExactCover sol))
          · exact hI
          · intro acc2 perm hperm hI2
            by_cases hdis : (perm &&& state == 0) = true
            · rw [if_pos hdis]
              have hdis0 : perm &&& state = 0 := beq_iff_eq.mp hdis
              obtain ⟨⟨hlen2, hagree2⟩, hsols2⟩ := hI2
              have hbi : trailingOnes state ∈ List.range 65 :=
                List.mem_range.mpr (by have := trailingOnes_le state; omega)
              obtain ⟨hm64, hmbit, hmcnt⟩ :=
                hwf (trailingOnes state) hbi piece (List.mem_range.mpr hpiece) perm hperm
              have hsdis0 : state &&& perm = 0 := by
                rw [Nat.and_comm]
                exact hdis0
              have hpicked2 : state = pickedOr used_pieces acc2.1 := by
                rw [hpicked]
                exact pickedOr_congr (fun p hp hb => (hagree2 p hp hb).symm)
              have hinv2 : SearchInv cnt (state ||| perm) (used_pieces ||| (1 <<< piece))
                  (acc2.1.set piece perm) := by
                refine ⟨Nat.or_lt_two_pow hs64 hm64,
                  Nat.or_lt_two_pow hu13 (shift_lt_two_pow hpiece),
                  by rw [List.length_set, hlen2, hlen], ?_, ?_, ?_⟩
                · rw [pickedOr_set hpiece hufalse (by rw [hlen2, hlen]), ← hpicked2]
                · rw [countOnes_or_disjoint hsdis0, usedSum_insert hpiece hufalse,
                    hcount, hmcnt]
                · intro p q hp hq hpq hbp hbq
                  rw [testBit_or_shift] at hbp hbq
                  by_cases hpp : p = piece
                  · subst hpp
                    have hqne : q ≠ p := fun he => hpq he.symm
                    have hbq2 : used_pieces.testBit q = true := by
                      rcases Bool.or_eq_true_iff.mp hbq with h2 | h2
                      · exact h2
                      · exact absurd (of_decide_eq_true h2).symm hqne
                    rw [getD_set_self (by rw [hlen2, hlen]; exact hpiece), getD_set_ne hpq]
                    have := disjoint_pick hpicked2 hdis0 hq hbq2
                    rw [hagree2 q hq hbq2] at this ⊢
                    exact this
                  · have hbp2 : used_pieces.testBit p = true := by
                      rcases Bool.or_eq_true_iff.mp hbp with h2 | h2
                      · exact h2
                      · exact absurd (of_decide_eq_true h2).symm hpp
                    rw [getD_set_ne (fun he => hpp he.symm)]
                    by_cases hqq : q = piece
                    · subst hqq
                      rw [getD_set_self (by rw [hlen2, hlen]; exact hpiece)]
                      have := disjoint_pick hpicked2 hdis0 hp hbp2
                      rw [hagree2 p hp hbp2] at this
                      rw [hagree2 p hp hbp2]
                      rw [Nat.and_comm]
                      exact this
                    · have hbq2 : used_pieces.testBit q = true := by
                        rcases Bool.or_eq_true_iff.mp hbq with h2 | h2
                        · exact h2
                        · exact absurd (of_decide_eq_true h2).symm hqq
                      rw [getD_set_ne (fun he => hqq he.symm)]
                      rw [hagree2 p hp hbp2, hagree2 q hq hbq2]
                      exact hdisj p q hp hq hpq hbp2 hbq2
              obtain ⟨⟨hlen3, hagree3⟩, hsols3⟩ :=
                ih (state ||| perm) (used_pieces ||| (1 <<< piece)) (acc2.1.set piece perm) hinv2
              refine ⟨⟨?_, ?_⟩, ?_⟩
              · rw [hlen3, List.length_set, hlen2]
              · intro p hp hb
                have hpne : p ≠ piece := by
                  intro he
                  rw [he, hufalse] at hb
                  exact Bool.noConfusion hb
                have hb2 : (used_pieces ||| (1 <<< piece)).testBit p = true := by
                  rw [testBit_or_shift, hb, Bool.true_or]
                rw [hagree3 p hp hb2, getD_set_ne (fun he => hpne he.symm)]
                exact hagree2 p hp hb
              · intro sol hsol
                rcases List.mem_append.mp hsol with h2 | h2
                · exact hsols2 sol h2
                · exact hsols3 sol h2
            · rw [if_neg hdis]
              exact hI2

theorem countOnes_zero : countOnes 0 = 0 := by decide

theorem usedSum_zero (cnt : Nat → Nat) : usedSum cnt 0 = 0 := by
  rw [usedSum]
  have h : (Finset.range NUM_PIECES).filter (fun p => (0 : Nat).testBit p) = ∅ := by
    ext q
    simp [Nat.zero_testBit]
  rw [h]
  rfl

theorem countOnes_le_of_lt_pow {u n : Nat} (hu : u < 2 ^ n) (hn : n ≤ 64) :
    countOnes u ≤ n := by
  rw [countOnes]
  calc ((Finset.range 64).filter (fun i => u.testBit i)).card
      ≤ (Finset.range n).card := by
        apply Finset.card_le_card
        intro i hi
        rw [Finset.mem_range]
        by_contra hlt
        have hb : u.testBit i = false :=
          Nat.testBit_lt_two_pow (lt_of_lt_of_le hu (Nat.pow_le_pow_right (by omega) (by omega)))
        rw [(Finset.mem_filter.mp hi).2] at hb
        exact Bool.noConfusion hb
    _ = n := Finset.card_range n

theorem countOnes_eq_of_all {u n : Nat} (hu : u < 2 ^ n) (hn : n ≤ 64)
    (hall : ∀ p, p < n → u.testBit p = true) : countOnes u = n := by
  rw [countOnes]
  have h : (Finset.range 64).filter (fun i => u.testBit i) = Finset.range n := by
    ext i
    simp only [Finset.mem_filter, Finset.mem_range]
    constructor
    · intro hi
      by_contra hlt
      have hb : u.testBit i = false :=
        Nat.testBit_lt_two_pow (lt_of_lt_of_le hu (Nat.pow_le_pow_right (by omega) (by omega)))
      rw [hi.2] at hb
      exact Bool.noConfusion hb
    · intro hi
      exact ⟨by omega, hall i hi⟩
  rw [h]
  exact Finset.card_range n

theorem searchInv_zero (cnt : Nat → Nat) :
    SearchInv cnt 0 0 (List.replicate NUM_PIECES 0) := by
  refine ⟨by decide, by decide, List.length_replicate _ _, ?_, ?_, ?_⟩
  · apply Nat.eq_of_testBit_eq
    intro i
    rw [pickedOr_testBit]
    simp [Nat.zero_testBit]
  · rw [countOnes_zero, usedSum_zero]
  · intro p q hp hq hpq hbp
    rw [Nat.zero_testBit] at hbp
    exact absurd hbp Bool.false_ne_true

/-- C1: every solution pushed by the search, started as in main on an empty
state, no used pieces and a zeroed pick array, over a well-formed coverage
index whose 13 per-piece bit counts total 64, consists of 13 pairwise
disjoint placement masks whose union is the full 64-bit cube mask. -/
theorem search_exact_cover (bit_map : List (List (List Nat))) (cnt : Nat → Nat)
    (hwf : WFBitMap bit_map cnt) (hsum : cntSum cnt = 64) :
    ∀ sol ∈ (search bit_map 0 0 (List.replicate NUM_PIECES 0)).2,
      (∀ p q, p < NUM_PIECES → q < NUM_PIECES → p ≠ q →
        sol.getD p 0 &&& sol.getD q 0 = 0) ∧
      solutionUnion sol = 2 ^ 64 - 1 := by
  intro sol hsol
  exact (searchFuel_sound bit_map cnt hwf hsum (NUM_PIECES + 1) 0 0
    (List.replicate NUM_PIECES 0) (searchInv_zero cnt)).2 sol hsol

theorem search_exact_cover_witness :
    WFBitMap (List.replicate 64 (List.replicate NUM_PIECES ([] : List Nat)))
        (fun p => if p = 0 then 52 else 1) ∧
    cntSum (fun p => if p = 0 then 52 else 1) = 64 ∧
    ∀ sol ∈ (search (List.replicate 64 (List.replicate NUM_PIECES ([] : List Nat))) 0 0
        (List.replicate NUM_PIECES 0)).2,
      (∀ p q, p < NUM_PIECES → q < NUM_PIECES → p ≠ q →
        sol.getD p 0 &&& sol.getD q 0 = 0) ∧
      solutionUnion sol = 2 ^ 64 - 1 :=
  ⟨by decide, by decide,
    search_exact_cover (List.replicate 64 (List.replicate NUM_PIECES ([] : List Nat)))
      (fun p => if p = 0 then 52 else 1) (by decide) (by decide)⟩

theorem foldl_congr {α β : Type} {l : List α} {f g : β → α → β} {a : β}
    (h : ∀ b x, x ∈ l → f b x = g b x) : l.foldl f a = l.foldl g a := by
  induction l generalizing a with
  | nil => rfl
  | cons x l ih =>
    rw [List.foldl_cons, List.foldl_cons, h a x (List.mem_cons_self x l)]
    exact ih (fun b y hy => h b y (List.mem_cons_of_mem x hy))

theorem searchFuel_stable (bit_map : List (List (List Nat))) :
    ∀ (fuel state used_pieces : Nat) (picks : List Nat),
      used_pieces < 2 ^ NUM_PIECES →
      NUM_PIECES + 1 - countOnes used_pieces ≤ fuel →
      searchFuel bit_map fuel state used_pieces picks
        = searchFuel bit_map (fuel + 1) state used_pieces picks := by
  intro fuel
  induction fuel with
  | zero =>
    intro state used_pieces picks hu hb
    have hle : countOnes used_pieces ≤ NUM_PIECES := countOnes_le_of_lt_pow hu (by decide)
    omega
  | succ fuel ih =>
    intro state used_pieces picks hu hb
    show searchBody bit_map (searchFuel bit_map fuel) state used_pieces picks
      = searchBody bit_map (searchFuel bit_map (fuel + 1)) state used_pieces picks
    rw [searchBody, searchBody]
    by_cases hterm : countOnes used_pieces = NUM_PIECES
    · rw [if_pos hterm, if_pos hterm]
    · rw [if_neg hterm, if_neg hterm]
      apply foldl_congr
      intro b piece hpiece
      rw [List.mem_range] at hpiece
      by_cases hused : (used_pieces &&& (1 <<< piece) != 0) = true
      · rw [if_pos hused, if_pos hused]
      · rw [if_neg hused, if_neg hused]
        have hufalse : used_pieces.testBit piece = false := by
          rw [← and_one_shift_ne_zero]
          exact Bool.not_eq_true _ ▸ (Bool.of_not_eq_true hused)
        apply foldl_congr
        intro acc2 perm hperm
        by_cases hdis : (perm &&& state == 0) = true
        · rw [if_pos hdis, if_pos hdis]
          have hrec : searchFuel bit_map fuel (state ||| perm)
              (used_pieces ||| (1 <<< piece)) (acc2.1.set piece perm)
              = searchFuel bit_map (fuel + 1) (state ||| perm)
                (used_pieces ||| (1 <<< piece)) (acc2.1.set piece perm) := by
            apply ih
            · exact Nat.or_lt_two_pow hu (shift_lt_two_pow hpiece)
            · rw [countOnes_or_shift (by have h13 : (NUM_PIECES : Nat) = 13 := rfl; omega) hufalse]
              omega
          rw [hrec]
        · rw [if_neg hdis, if_neg hdis]

theorem searchFuel_stable_add (bit_map : List (List (List Nat))) :
    ∀ (k fuel state used_pieces : Nat) (picks : List Nat),
      used_pieces < 2 ^ NUM_PIECES →
      NUM_PIECES + 1 - countOnes used_pieces ≤ fuel →
      searchFuel bit_map fuel state used_pieces picks
        = searchFuel bit_map (fuel + k) state used_pieces picks := by
  intro k
  induction k with
  | zero => intro fuel state used_pieces picks hu hb; rfl
  | succ k ih =>
    intro fuel state used_pieces picks hu hb
    rw [ih fuel state used_pieces picks hu hb, ← Nat.add_assoc]
    exact searchFuel_stable bit_map (fuel + k) state used_pieces picks hu (by omega)

/-- C7: the search recursion terminates on every input.  Whenever a recursive
call is made, the occupied mask strictly gains bits (the chosen placement
covers the previously uncovered selected cell) and the used-piece mask gains
exactly one bit, so the recursion depth is bounded by the 13 pieces: any fuel
of at least NUM_PIECES + 1 - countOnes used_pieces computes the same result
as search. -/
theorem search_terminates (bit_map : List (List (List Nat))) (cnt : Nat → Nat)
    (hwf : WFBitMap bit_map cnt) :
    (∀ (fuel state used_pieces : Nat) (picks : List Nat),
      used_pieces < 2 ^ NUM_PIECES →
      NUM_PIECES + 1 - countOnes used_pieces ≤ fuel →
      searchFuel bit_map fuel state used_pieces picks
        = search bit_map state used_pieces picks) ∧
    (∀ state used_pieces piece m, piece < NUM_PIECES →
      used_pieces.testBit piece = false →
      m ∈ bitMapEntry bit_map (trailingOnes state) piece → m &&& state = 0 →
      countOnes state < countOnes (state ||| m) ∧
      countOnes (used_pieces ||| (1 <<< piece)) = countOnes used_pieces + 1) := by
  constructor
  · intro fuel state used_pieces picks hu hb
    have hble : NUM_PIECES + 1 - countOnes used_pieces ≤ NUM_PIECES + 1 := by omega
    rw [search]
    rcases Nat.le_total fuel (NUM_PIECES + 1) with h | h
    · obtain ⟨k, hk⟩ := Nat.le.dest h
      rw [← hk, ← searchFuel_stable_add bit_map k fuel state used_pieces picks hu hb]
    · obtain ⟨k, hk⟩ := Nat.le.dest h
      rw [← hk, ← searchFuel_stable_add bit_map k (NUM_PIECES + 1) state used_pieces picks hu hble]
  · intro state used_pieces piece m hpiece hufalse hm hdis
    have hbi : trailingOnes state ∈ List.range 65 :=
      List.mem_range.mpr (by have := trailingOnes_le state; omega)
    obtain ⟨hm64, hmbit, _⟩ := hwf (trailingOnes state) hbi piece (List.mem_range.mpr hpiece) m hm
    constructor
    · by_cases h64 : trailingOnes state < 64
      · have hsbit : state.testBit (trailingOnes state) = false := trailingOnes_testBit_false h64
        exact countOnes_lt_of_testBit (trailingOnes state) h64 hsbit hmbit
      · exfalso
        have : m.testBit (trailingOnes state) = false := by
          apply Nat.testBit_lt_two_pow
          exact lt_of_lt_of_le hm64 (Nat.pow_le_pow_right (by omega) (by omega))
        rw [this] at hmbit
        exact Bool.noConfusion hmbit
    · exact countOnes_or_shift (by have h13 : (NUM_PIECES : Nat) = 13 := rfl; omega) hufalse

theorem search_terminates_witness :
    searchFuel (List.replicate 64 (List.replicate NUM_PIECES ([] : List Nat))) 20 0 0
        (List.replicate NUM_PIECES 0)
      = search (List.replicate 64 (List.replicate NUM_PIECES ([] : List Nat))) 0 0
        (List.replicate NUM_PIECES 0) :=
  (search_terminates (List.replicate 64 (List.replicate NUM_PIECES ([] : List Nat)))
    (fun _ => 0) (by decide)).1 20 0 0 (List.replicate NUM_PIECES 0) (by decide) (by decide)

/-- Call tree of the search: the (state, used_pieces) pairs at which search
is invoked, starting from the top-level call search(0, 0, ...) in main.  A
recursive call happens exactly under the recorded guards of the source. -/
inductive SearchCalls (bit_map : List (List (List Nat))) : Nat → Nat → Prop
  | init : SearchCalls bit_map 0 0
  | step {state used_pieces piece m : Nat} :
      SearchCalls bit_map state used_pieces →
      countOnes used_pieces ≠ NUM_PIECES →
      piece < NUM_PIECES →
      used_pieces.testBit piece = false →
      m ∈ bitMapEntry bit_map (trailingOnes state) piece →
      m &&& state = 0 →
      SearchCalls bit_map (state ||| m) (used_pieces ||| (1 <<< piece))

theorem searchCalls_inv {bit_map : List (List (List Nat))} {cnt : Nat → Nat}
    (hwf : WFBitMap bit_map cnt) {state used_pieces : Nat}
    (h : SearchCalls bit_map state used_pieces) :
    state < 2 ^ 64 ∧ used_pieces < 2 ^ NUM_PIECES ∧
      countOnes state = usedSum cnt used_pieces := by
  induction h with
  | init => exact ⟨by decide, by decide, by rw [countOnes_zero, usedSum_zero]⟩
  | step hcall hterm hpiece hufalse hm hdis ih =>
    obtain ⟨hs64, hu13, hcount⟩ := ih
    rename_i state used_pieces piece m
    have hbi : trailingOnes state ∈ List.range 65 :=
      List.mem_range.mpr (by have := trailingOnes_le state; omega)
    obtain ⟨hm64, hmbit, hmcnt⟩ :=
      hwf (trailingOnes state) hbi piece (List.mem_range.mpr hpiece) m hm
    refine ⟨Nat.or_lt_two_pow hs64 hm64,
      Nat.or_lt_two_pow hu13 (shift_lt_two_pow hpiece), ?_⟩
    rw [countOnes_or_disjoint (by rw [Nat.and_comm]; exact hdis),
      usedSum_insert hpiece hufalse, hcount, hmcnt]

/-- C10: with all 64 cube bits set but fewer than 13 pieces used, the selected
index trailing_ones state would be 64, one past the end of the 64-entry
bit_map; under the preconditions that the 13 per-piece bit counts sum to 64
and every piece has at least one bit, this is unreachable: at every call of
the search that indexes bit_map, the index is strictly below 64. -/
theorem search_index_safe (bit_map : List (List (List Nat))) (cnt : Nat → Nat)
    (hwf : WFBitMap bit_map cnt) (hsum : cntSum cnt = 64)
    (hpos : ∀ p, p < NUM_PIECES → 1 ≤ cnt p) :
    trailingOnes (2 ^ 64 - 1) = 64 ∧
    (∀ piece_placements : List (List Nat), (build_bit_map piece_placements).length = 64) ∧
    (∀ state used_pieces, SearchCalls bit_map state used_pieces →
      countOnes used_pieces ≠ NUM_PIECES → trailingOnes state < 64) := by
  refine ⟨trailingOnes_full, ?_, ?_⟩
  · intro piece_placements
    rw [build_bit_map, List.length_map, List.length_range]
  · intro state used_pieces hcall hterm
    obtain ⟨hs64, hu13, hcount⟩ := searchCalls_inv hwf hcall
    have hq : ∃ q, q < NUM_PIECES ∧ used_pieces.testBit q = false := by
      by_contra hno
      push_neg at hno
      apply hterm
      apply countOnes_eq_of_all hu13 (by decide)
      intro p hp
      cases hb : used_pieces.testBit p
      · exact absurd hb (hno p hp)
      · rfl
    obtain ⟨q, hq13, hqfalse⟩ := hq
    have hsub : (Finset.range NUM_PIECES).filter (fun p => used_pieces.testBit p)
        ⊆ (Finset.range NUM_PIECES).erase q := by
      intro p hp
      rw [Finset.mem_erase]
      have hp2 := Finset.mem_filter.mp hp
      refine ⟨?_, hp2.1⟩
      intro he
      subst he
      rw [hqfalse] at hp2
      exact Bool.noConfusion hp2.2
    have hsum2 : usedSum cnt used_pieces ≤ cntSum cnt - cnt q := by
      rw [usedSum, cntSum]
      have hle2 := Finset.sum_le_sum_of_subset (f := cnt) hsub
      have h2 := Finset.sum_erase_add (Finset.range NUM_PIECES) cnt
        (Finset.mem_range.mpr hq13)
      omega
    have hcq := hpos q hq13
    have hclt : countOnes state < 64 := by
      rw [hcount]
      omega
    have hne : state ≠ 2 ^ 64 - 1 := by
      intro he
      rw [he, countOnes_full] at hclt
      omega
    exact trailingOnes_lt_64 hs64 hne

theorem search_index_safe_witness :
    trailingOnes (2 ^ 64 - 1) = 64 ∧
    (∀ piece_placements : List (List Nat), (build_bit_map piece_placements).length = 64) ∧
    (∀ state used_pieces,
      SearchCalls (List.replicate 64 (List.replicate NUM_PIECES ([] : List Nat)))
        state used_pieces →
      countOnes used_pieces ≠ NUM_PIECES → trailingOnes state < 64) :=
  search_index_safe (List.replicate 64 (List.replicate NUM_PIECES ([] : List Nat)))
    (fun p => if p = 0 then 52 else 1) (by decide) (by decide) (by decide)

/-- hash_solution from the source: XOR over the 13 piece masks, each shifted
left by its piece index in u64 arithmetic. -/
def hash_solution (solution : List Nat) : Nat :=
  (List.range NUM_PIECES).foldl
    (fun h p => h ^^^ ((solution.getD p 0 <<< p) % 2 ^ 64)) 0

/-- One 90-degree rotation applied to every piece mask of a solution (the
inner per-piece loop of filter_unique_solutions). -/
def rotate_solution (sol : List Nat) (a : Axis) : List Nat :=
  sol.map (fun m => rotate_piece_90 m a)

/-- The 84 rotated variants of a solution visited by the rotation schedule of
filter_unique_solutions, in visit order. -/
def solutionOrbitList (sol : List Nat) : List (List Nat) :=
  (rotSeq.scanl rotate_solution sol).tail

/-- One step of filter_unique_solutions: skip the solution when its
fingerprint is already seen, otherwise emit it and record the fingerprints of
it and of its whole rotation orbit. -/
def filterStep (acc : Finset Nat × List (List Nat)) (solution : List Nat) :
    Finset Nat × List (List Nat) :=
  if hash_solution solution ∈ acc.1 then acc
  else (insert (hash_solution solution) acc.1 ∪
      ((solutionOrbitList solution).map hash_solution).toFinset,
    acc.2 ++ [solution])

/-- Fold state of filter_unique_solutions over an input list: the seen
fingerprint set and the emitted solutions in order. -/
def filterState (solutions : List (List Nat)) : Finset Nat × List (List Nat) :=
  solutions.foldl filterStep (∅, [])

/-- filter_unique_solutions from the source. -/
def filter_unique_solutions (solutions : List (List Nat)) : List (List Nat) :=
  (filterState solutions).2

/-- A bit-index permutation applied to every piece mask of a solution. -/
def applyPermSol (sigma : List Nat) (sol : List Nat) : List Nat :=
  sol.map (fun m => applyPerm sigma m)

theorem rotate_solution_applyPermSol (sigma : List Nat) (sol : List Nat) (a : Axis) :
    rotate_solution (applyPermSol sigma sol) a
      = applyPermSol (pcomp sigma (axisPerm a)) sol := by
  rw [rotate_solution, applyPermSol, applyPermSol, List.map_map]
  have h : ((fun m => rotate_piece_90 m a) ∘ fun m => applyPerm sigma m)
      = fun m => applyPerm (pcomp sigma (axisPerm a)) m := by
    funext m
    simp only [Function.comp]
    rw [rotate_eq_applyPerm, applyPerm_applyPerm (axisPerm_ok a)]
  rw [h]

theorem scanl_rotate_sol (l : List Axis) :
    ∀ (sigma : List Nat) (sol : List Nat),
      l.scanl rotate_solution (applyPermSol sigma sol) =
        (l.scanl (fun t a => pcomp t (axisPerm a)) sigma).map
          (fun t => applyPermSol t sol) := by
  induction l with
  | nil =>
    intro sigma sol
    rw [List.scanl_nil, List.scanl_nil, List.map_singleton]
  | cons a l ih =>
    intro sigma sol
    rw [List.scanl_cons, List.scanl_cons, List.map_append, List.map_singleton]
    apply congrArg ([applyPermSol sigma sol] ++ ·)
    rw [rotate_solution_applyPermSol]
    exact ih (pcomp sigma (axisPerm a)) sol

theorem solutionOrbitList_eq_map (sol : List Nat) :
    solutionOrbitList sol = visitedPerms.map (fun t => applyPermSol t sol) := by
  have hseq : rotSeq = Axis.X :: rotSeq.tail := by rfl
  rw [solutionOrbitList, visitedPerms, hseq, List.scanl_cons, List.scanl_cons,
    List.singleton_append, List.singleton_append, List.tail_cons, List.tail_cons]
  have h1 : rotate_solution sol Axis.X = applyPermSol (pcomp idPerm (axisPerm Axis.X)) sol := by
    rw [pcomp_idPerm_axis, rotate_solution, applyPermSol]
    have h2 : (fun m => rotate_piece_90 m Axis.X) = fun m => applyPerm (axisPerm Axis.X) m := by
      funext m
      exact rotate_eq_applyPerm m Axis.X
    rw [h2]
  rw [h1, scanl_rotate_sol]

/-- All fingerprints a processed solution contributes to the seen set: its
own and those of its 84 rotated variants. -/
def orbitHashSet (sol : List Nat) : Finset Nat :=
  insert (hash_solution sol) ((solutionOrbitList sol).map hash_solution).toFinset

theorem filterState_take_succ (sols : List (List Nat)) (n : Nat) (h : n < sols.length) :
    filterState (sols.take (n + 1))
      = filterStep (filterState (sols.take n)) (sols.getD n []) := by
  have htake : sols.take (n + 1) = sols.take n ++ [sols.getD n []] := by
    rw [List.take_succ, List.getElem?_eq_getElem h, List.getD_eq_getElem?_getD,
      List.getElem?_eq_getElem h]
    rfl
  rw [htake, filterState, filterState, List.foldl_append, List.foldl_cons, List.foldl_nil]

theorem filterStep_seen_mono {acc : Finset Nat × List (List Nat)} {s : List Nat} :
    acc.1 ⊆ (filterStep acc s).1 := by
  rw [filterStep]
  split
  · exact Finset.Subset.refl _
  · intro x hx
    exact Finset.mem_union_left _ (Finset.mem_insert_of_mem hx)

theorem filterState_seen_take_mono (sols : List (List Nat)) {m n : Nat} (h : m ≤ n) :
    (filterState (sols.take m)).1 ⊆ (filterState (sols.take n)).1 := by
  induction n with
  | zero =>
    have hm : m = 0 := by omega
    subst hm
    exact Finset.Subset.refl _
  | succ n ih =>
    rcases Nat.lt_or_ge m (n + 1) with h2 | h2
    · have h3 := ih (by omega)
      by_cases hn : n < sols.length
      · rw [filterState_take_succ sols n hn]
        exact h3.trans filterStep_seen_mono
      · have e1 : sols.take (n + 1) = sols := List.take_of_length_le (by omega)
        have e2 : sols.take n = sols := List.take_of_length_le (by omega)
        rw [e1]
        rw [e2] at h3
        exact h3
    · have hm : m = n + 1 := by omega
      subst hm
      exact Finset.Subset.refl _

theorem filterState_seen_subset (sols : List (List Nat)) :
    ∀ n, (filterState (sols.take n)).1 ⊆
      (Finset.range n).biUnion (fun k => orbitHashSet (sols.getD k [])) := by
  intro n
  induction n with
  | zero =>
    rw [List.take_zero]
    intro x hx
    exact absurd hx (Finset.not_mem_empty x)
  | succ n ih =>
    have hstep : (Finset.range n).biUnion (fun k => orbitHashSet (sols.getD k []))
        ⊆ (Finset.range (n + 1)).biUnion (fun k => orbitHashSet (sols.getD k [])) :=
      Finset.biUnion_subset_biUnion_of_subset_left _
        (by intro x hx; rw [Finset.mem_range] at hx ⊢; omega)
    by_cases hn : n < sols.length
    · rw [filterState_take_succ sols n hn, filterStep]
      split
      · exact ih.trans hstep
      · intro x hx
        rcases Finset.mem_union.mp hx with h2 | h2
        · rcases Finset.mem_insert.mp h2 with he | h3
          · apply Finset.mem_biUnion.mpr
            refine ⟨n, Finset.mem_range.mpr (by omega), ?_⟩
            rw [he, orbitHashSet]
            exact Finset.mem_insert_self _ _
          · exact hstep (ih h3)
        · apply Finset.mem_biUnion.mpr
          refine ⟨n, Finset.mem_range.mpr (by omega), ?_⟩
          rw [orbitHashSet]
          exact Finset.mem_insert_of_mem h2
    · have e1 : sols.take (n + 1) = sols := List.take_of_length_le (by omega)
      have e2 : sols.take n = sols := List.take_of_length_le (by omega)
      rw [e1]
      rw [e2] at ih
      exact ih.trans hstep

theorem emitted_mem (sols : List (List Nat)) (n : Nat) (hn : n < sols.length)
    (h : hash_solution (sols.getD n []) ∉ (filterState (sols.take n)).1) :
    sols.getD n [] ∈ filter_unique_solutions sols := by
  have h1 : (filterState (sols.take (n + 1))).2
      = (filterState (sols.take n)).2 ++ [sols.getD n []] := by
    rw [filterState_take_succ sols n hn, filterStep, if_neg h]
  have h2 : sols.getD n [] ∈ (filterState (sols.take (n + 1))).2 := by
    rw [h1]
    exact List.mem_append_right _ (List.mem_singleton_self _)
  have h3 : ∀ (l2 : List (List Nat)) (acc : Finset Nat × List (List Nat)) (x : List Nat),
      x ∈ acc.2 → x ∈ (l2.foldl filterStep acc).2 := by
    intro l2
    induction l2 with
    | nil => intro acc x hx; exact hx
    | cons s l2 ih =>
      intro acc x hx
      rw [List.foldl_cons]
      apply ih
      rw [filterStep]
      split
      · exact hx
      · exact List.mem_append_left _ hx
  rw [filter_unique_solutions]
  have h4 : filterState sols
      = (sols.drop (n + 1)).foldl filterStep (filterState (sols.take (n + 1))) := by
    conv_lhs => rw [← List.take_append_drop (n + 1) sols]
    rw [filterState, filterState, List.foldl_append]
  rw [h4]
  exact h3 _ _ _ h2

/-- C4: a solution equal to some combination of the 24 cube rotations applied
simultaneously to all 13 masks of an earlier-emitted solution is never
emitted as a second unique solution: when it is reached its fingerprint is
already in the seen set, so the output is unchanged at its position. -/
theorem filter_dedup_sound (sols : List (List Nat)) (i j : Nat) (sigma : List Nat)
    (hij : i < j) (hj : j < sols.length)
    (hemit : hash_solution (sols.getD i []) ∉ (filterState (sols.take i)).1)
    (hrot : IsRotation sigma)
    (heq : sols.getD j [] = applyPermSol sigma (sols.getD i [])) :
    hash_solution (sols.getD j []) ∈ (filterState (sols.take j)).1 ∧
    (filterState (sols.take (j + 1))).2 = (filterState (sols.take j)).2 := by
  have hi : i < sols.length := by omega
  have hseen : orbitHashSet (sols.getD i []) ⊆ (filterState (sols.take (i + 1))).1 := by
    rw [filterState_take_succ sols i hi, filterStep, if_neg hemit]
    intro x hx
    rcases Finset.mem_insert.mp hx with he | h2
    · exact Finset.mem_union_left _ (by rw [he]; exact Finset.mem_insert_self _ _)
    · exact Finset.mem_union_right _ h2
  have hmem : applyPermSol sigma (sols.getD i []) ∈ solutionOrbitList (sols.getD i []) := by
    rw [solutionOrbitList_eq_map]
    exact List.mem_map.mpr
      ⟨sigma, cubeRotations_sub_visited sigma (isRotation_mem_cubeRotations hrot), rfl⟩
  have hhash : hash_solution (sols.getD j []) ∈ orbitHashSet (sols.getD i []) := by
    rw [heq, orbitHashSet]
    exact Finset.mem_insert_of_mem (List.mem_toFinset.mpr (List.mem_map.mpr ⟨_, hmem, rfl⟩))
  have h1 : hash_solution (sols.getD j []) ∈ (filterState (sols.take j)).1 :=
    filterState_seen_take_mono sols (by omega) (hseen hhash)
  refine ⟨h1, ?_⟩
  rw [filterState_take_succ sols j hj, filterStep, if_pos h1]

theorem filter_dedup_sound_witness :
    hash_solution (([([] : List Nat), applyPermSol (axisPerm Axis.X) []]).getD 1 [])
      ∈ (filterState (([([] : List Nat), applyPermSol (axisPerm Axis.X) []]).take 1)).1 ∧
    (filterState (([([] : List Nat), applyPermSol (axisPerm Axis.X) []]).take 2)).2
      = (filterState (([([] : List Nat), applyPermSol (axisPerm Axis.X) []]).take 1)).2 :=
  filter_dedup_sound [([] : List Nat), applyPermSol (axisPerm Axis.X) []] 0 1
    (axisPerm Axis.X) (by decide) (by decide) (by decide)
    ((isRotation_iff_mem (axisPerm Axis.X)).mpr (by decide)) rfl

/-- Sample solutions for the fingerprint-collision counterexample: piece 0
holding mask 3 versus piece 0 and piece 1 holding masks 1 and 1; both
fingerprints equal 3. -/
def sampleSolA : List Nat := 3 :: List.replicate 12 0

def sampleSolB : List Nat := 1 :: 1 :: List.replicate 11 0

/-- C3 fails on the code: sampleSolA and sampleSolB are not related by any
cube rotation, yet filter_unique_solutions emits only the first of them,
because their fingerprints collide (both hash to 3). -/
theorem filter_unique_not_complete :
    filter_unique_solutions [sampleSolA, sampleSolB] = [sampleSolA] ∧
    sampleSolA ≠ sampleSolB ∧
    ¬ ∃ sigma, IsRotation sigma ∧
      (applyPermSol sigma sampleSolA = sampleSolB ∨
       applyPermSol sigma sampleSolB = sampleSolA) := by
  refine ⟨?_, by decide, ?_⟩
  · have hhash : hash_solution sampleSolB = hash_solution sampleSolA := by decide
    have hstep1 : filterStep (∅, ([] : List (List Nat))) sampleSolA
        = (insert (hash_solution sampleSolA) ∅ ∪
            ((solutionOrbitList sampleSolA).map hash_solution).toFinset,
           [] ++ [sampleSolA]) := by
      rw [filterStep, if_neg (Finset.not_mem_empty _)]
    rw [filter_unique_solutions, filterState, List.foldl_cons, List.foldl_cons,
      List.foldl_nil, hstep1, filterStep,
      if_pos (Finset.mem_union_left _ (by rw [hhash]; exact Finset.mem_insert_self _ _))]
    rfl
  · rintro ⟨sigma, hrot, hcase⟩
    obtain ⟨inv, h1, h2, h3, h4⟩ :=
      exists_inv_of_mem_cubeRotations (isRotation_mem_cubeRotations hrot)
    rcases hcase with hAB | hBA
    · have hhead : applyPerm sigma 3 = 1 := by
        have h5 : applyPerm sigma 3 :: (List.replicate 12 0).map (fun m => applyPerm sigma m)
            = 1 :: 1 :: List.replicate 11 0 := hAB
        exact (List.cons.injEq _ _ _ _ ▸ h5).1
      have hc := countOnes_applyPerm_of_inv h1 h2 h3 h4 3
      rw [hhead] at hc
      revert hc
      decide
    · have hhead : applyPerm sigma 1 = 3 := by
        have h5 : applyPerm sigma 1 :: (1 :: List.replicate 11 0).map (fun m => applyPerm sigma m)
            = 3 :: List.replicate 12 0 := hBA
        exact (List.cons.injEq _ _ _ _ ▸ h5).1
      have hc := countOnes_applyPerm_of_inv h1 h2 h3 h4 1
      rw [hhead] at hc
      revert hc
      decide

/-- C3 amended: two solutions in the list are both emitted provided the
fingerprint of each differs from every fingerprint contributed by the list
entries before it (each earlier entry with its full rotation orbit); in
particular, absent fingerprint collisions, rotation-unrelated solutions are
always both kept. -/
theorem filter_unique_no_collision (sols : List (List Nat)) (i j : Nat)
    (hij : i < j) (hj : j < sols.length)
    (hi2 : hash_solution (sols.getD i []) ∉
      (Finset.range i).biUnion (fun k => orbitHashSet (sols.getD k [])))
    (hj2 : hash_solution (sols.getD j []) ∉
      (Finset.range j).biUnion (fun k => orbitHashSet (sols.getD k []))) :
    sols.getD i [] ∈ filter_unique_solutions sols ∧
    sols.getD j [] ∈ filter_unique_solutions sols := by
  have hi : i < sols.length := by omega
  constructor
  · apply emitted_mem sols i hi
    intro hmem
    exact hi2 (filterState_seen_subset sols i hmem)
  · apply emitted_mem sols j hj
    intro hmem
    exact hj2 (filterState_seen_subset sols j hmem)

theorem filter_unique_no_collision_witness :
    ([([] : List Nat), 5 :: List.replicate 12 0]).getD 0 []
        ∈ filter_unique_solutions [([] : List Nat), 5 :: List.replicate 12 0] ∧
    ([([] : List Nat), 5 :: List.replicate 12 0]).getD 1 []
        ∈ filter_unique_solutions [([] : List Nat), 5 :: List.replicate 12 0] :=
  filter_unique_no_collision [([] : List Nat), 5 :: List.replicate 12 0] 0 1
    (by decide) (by decide) (by decide) (by decide)

end Bedlam
